import Mathlib

/-!
Shallow embedding of the gcalsync reconciliation engine
(`background/sync.js`, `background/calendar.js`) and proofs about it.

Modelling conventions:
* Timestamps are epoch milliseconds (`Int`); the JavaScript runtime is taken
  to be in the UTC timezone, so `Date.setHours(0,0,0,0)` floors to a multiple
  of `dayMs`, `setDate(getDate() ± n)` adds/subtracts `n * dayMs`, and
  `Date.getDate()` is the day-of-month of the civil date of the instant.
* A provider `dateTime` value is carried as the serialized string (the
  identity used by `_createEventKey`) together with its parsed epoch-ms value
  (the result of `new Date(raw)`), rather than re-implementing ISO-8601
  parsing.
* Each calendar's provider response for the window of a run is part of the
  `Provider` oracle; an event list returned for a calendar stands for "the
  events the provider reports for that calendar in the requested window".
* Remote failures are modelled through the oracle: `fetchOk`/`deleteOk` say
  whether the corresponding HTTP call comes back `response.ok`.  A not-found
  (404) outcome of a DELETE is a `response.ok === false` outcome.
-/

set_option autoImplicit false

namespace GCalSync

/-- Milliseconds in one day. -/
def dayMs : Int := 86400000

/-- Civil date (year, month, day) of a day number counted from 1970-01-01,
the standard days-to-civil conversion (as used by JavaScript `Date` accessors
in a UTC runtime). -/
def civilFromDays (z : Int) : Int × Nat × Nat :=
  let z' := z + 719468
  let era : Int := z'.fdiv 146097
  let doe : Nat := (z'.fmod 146097).toNat
  let yoe : Nat := (doe - doe / 1460 + doe / 36524 - doe / 146096) / 365
  let doy : Nat := doe - (365 * yoe + yoe / 4 - yoe / 100)
  let mp : Nat := (5 * doy + 2) / 153
  let d : Nat := doy - (153 * mp + 2) / 5 + 1
  let m : Nat := if mp < 10 then mp + 3 else mp - 9
  (era * 400 + (yoe : Int) + (if m ≤ 2 then 1 else 0), m, d)

/-- Result of JavaScript `new Date(ms).getDate()` in a UTC runtime: the
day-of-month component only. -/
def getDate (ms : Int) : Nat :=
  (civilFromDays (ms.fdiv dayMs)).2.2

/-- Full civil date of an instant; two instants are on the same calendar day
iff their `civilDay`s agree.  (Spec notion; `getDate` is what the code uses.) -/
def civilDay (ms : Int) : Int × Nat × Nat :=
  civilFromDays (ms.fdiv dayMs)

/-- A provider `dateTime`: the serialized string together with its parsed
epoch-ms value (`new Date(raw).getTime()`). -/
structure DateTime where
  raw : String
  ms : Int
deriving DecidableEq, Repr

/-- Models the `start` / `end` object of a Google Calendar event.  `dateTime`
is absent on all-day events. -/
structure EventBoundary where
  dateTime : Option DateTime
  timeZone : Option String
deriving DecidableEq, Repr

/-- A calendar event as observed through the provider API, restricted to the
fields the engine reads.  `syncedEvent` models
`extendedProperties?.private?.syncedEvent`. -/
structure CalEvent where
  id : String
  start : Option EventBoundary
  end_ : Option EventBoundary
  syncedEvent : Option String
deriving DecidableEq, Repr

/-- The tag test `event.extendedProperties?.private?.syncedEvent === 'true'`. -/
def isSyncedTag (ev : CalEvent) : Bool :=
  ev.syncedEvent = some "true"

/-- JavaScript template interpolation of a possibly-missing `dateTime`:
`undefined` prints as the string "undefined". -/
def dtStr : Option DateTime → String
  | some d => d.raw
  | none => "undefined"

/-- The slot key `_createEventKey`:
`${event.start.dateTime}_${event.end.dateTime}`. -/
def createEventKey (ev : CalEvent) : String :=
  dtStr (ev.start.bind EventBoundary.dateTime) ++ "_" ++
    dtStr (ev.end_.bind EventBoundary.dateTime)

/-- Slot key of an event that passes the two eligibility guards of the source
loop of `performSync` (concrete start/end `dateTime` present, and equal
`getDate()` day-of-month), `none` if either guard skips the event. -/
def slotKey? (ev : CalEvent) : Option String :=
  match ev.start.bind EventBoundary.dateTime, ev.end_.bind EventBoundary.dateTime with
  | some s, some e =>
      if getDate s.ms = getDate e.ms then some (s.raw ++ "_" ++ e.raw) else none
  | _, _ => none

/-- Slot keys of the events of a list that pass the eligibility guards, in
order (an event contributes one occurrence per appearance). -/
def eligibleKeys (l : List CalEvent) : List String :=
  l.filterMap slotKey?

/-- JavaScript `Map.set` on an association list: replace in place when the key
is present (iteration order keeps the first insertion position), append
otherwise. -/
def mapSet (m : List (String × CalEvent)) (k : String) (v : CalEvent) :
    List (String × CalEvent) :=
  if m.any (fun p => p.1 = k) then
    m.map (fun p => if p.1 = k then (k, v) else p)
  else m ++ [(k, v)]

/-- JavaScript `new Map(entries)`: fold `Map.set` over the entry list. -/
def mapOfEntries (l : List (String × CalEvent)) : List (String × CalEvent) :=
  l.foldl (fun m p => mapSet m p.1 p.2) []

/-- JavaScript `Map.has`. -/
def mapHas (m : List (String × CalEvent)) (k : String) : Bool :=
  m.any (fun p => p.1 = k)

/-- JavaScript `Set.add` (insertion-ordered, duplicate-free). -/
def setAdd (s : List String) (k : String) : List String :=
  if s.contains k then s else s ++ [k]

/-- One page of a provider response to an events-list request. -/
structure EventsPage where
  items : List CalEvent
  nextPageToken : Option String

/-- Provider oracle for one run: `page c tok` is the response to an events
GET on calendar `c` with page token `tok` (`none` = no `pageToken`
parameter); `fetchOk` / `deleteOk` tell whether the corresponding HTTP
response is `ok` (a DELETE of a non-existent id comes back not-`ok`). -/
structure Provider where
  page : String → Option String → EventsPage
  fetchOk : String → Bool
  deleteOk : String → Bool

/-- Events of a calendar as the first page reports them (what a single
`fetchEvents` call with no `pageToken` yields). -/
def Provider.events (prov : Provider) (calendarId : String) : List CalEvent :=
  (prov.page calendarId none).items

/-- The error strings of `calendar.js` / `sync.js` that can surface. -/
def FETCH_FAILED : String := "Failed to fetch calendar events"

def DELETE_FAILED : String := "Failed to delete calendar event"

def CLEANUP_FAILED : String := "Cleanup operation failed"

def NOT_CONFIGURED : String := "Sync settings not configured"

/-- One provider call issued during a run, with the query window on fetches. -/
inductive Call where
  | fetch (calendarId : String) (timeMin timeMax : Int)
  | create (calendarId : String) (body : CalEvent)
  | delete (calendarId : String) (eventId : String)
deriving DecidableEq, Repr

def isCreateCall : Call → Bool
  | .create _ _ => true
  | _ => false

def isDeleteCall : Call → Bool
  | .delete _ _ => true
  | _ => false

/-- The `fetchEvents` of `calendar.js`: issues a single GET (optionally with a
`pageToken`) and returns `data.items` only — any `nextPageToken` of the
response is dropped. -/
def fetchEvents (prov : Provider) (calendarId : String) (pageToken : Option String) :
    List CalEvent :=
  (prov.page calendarId pageToken).items

/-- The busy-event body `createBusyEvent` builds and POSTs, or `none` when the
guards skip the source event (missing concrete `dateTime`, or differing
`getDate()` day-of-month).  `newId` is the id the target calendar assigns on
creation. -/
def busyEventOf (sourceEvent : CalEvent) (newId : String) : Option CalEvent :=
  match sourceEvent.start.bind EventBoundary.dateTime,
      sourceEvent.end_.bind EventBoundary.dateTime with
  | some s, some e =>
      if getDate s.ms = getDate e.ms then
        some { id := newId
               start := some { dateTime := some s
                               timeZone := sourceEvent.start.bind EventBoundary.timeZone }
               end_ := some { dateTime := some e
                              timeZone := sourceEvent.end_.bind EventBoundary.timeZone }
               syncedEvent := some "true" }
      else none
  | _, _ => none

/-- The `createBusyEvent` of `calendar.js`: returns the created event (if the
POST was issued) together with the provider call made. -/
def createBusyEvent (calendarId : String) (sourceEvent : CalEvent) (newId : String) :
    Option CalEvent × List Call :=
  match busyEventOf sourceEvent newId with
  | some b => (some b, [Call.create calendarId b])
  | none => (none, [])

/-- The `deleteEvent` of `calendar.js`: any non-`ok` response (including a
not-found outcome) throws `DELETE_FAILED`. -/
def deleteEvent (responseOk : Bool) : Except String Unit :=
  if responseOk then .ok () else .error DELETE_FAILED

/-- Settings as `storageService.getSettings` delivers them (already merged
with the stored defaults); `targetCalendar := none` models a missing field. -/
structure Settings where
  targetCalendar : Option String
  sourceCalendars : List String
  weeksAhead : Int
deriving Repr

/-- Mutable state of the `SyncService` singleton. -/
structure SyncState where
  syncInProgress : Bool
  lastSyncTime : Option Int
deriving DecidableEq, Repr

def getLastSyncTime (st : SyncState) : Option Int :=
  st.lastSyncTime

def isSyncing (st : SyncState) : Bool :=
  st.syncInProgress

/-- The time range computed at the top of `performSync` (UTC runtime):
`setDate(getDate() - 7)` moves the instant back exactly 7 days keeping the
time of day, and `setDate(getDate() + weeksAhead * 7)` moves it forward
`weeksAhead * 7` days keeping the time of day. -/
def syncDateRange (now : Int) (weeksAhead : Int) : Int × Int :=
  (now - 7 * dayMs, now + weeksAhead * 7 * dayMs)

/-- Midnight before an instant: `setHours(0,0,0,0)` in a UTC runtime. -/
def startOfDay (now : Int) : Int :=
  (now.fdiv dayMs) * dayMs

/-- The `_getDateRange` of `sync.js` (UTC runtime): returns
`(cleanupStart, startDate, endDate)`. -/
def getDateRange (now : Int) (weeksAhead : Int) : Int × Int × Int :=
  let startDate := startOfDay now
  let endDate := startDate + weeksAhead * 7 * dayMs + (dayMs - 1)
  let cleanupStart := startDate - 7 * dayMs
  (cleanupStart, startDate, endDate)

/-- Whitespace trim, modelling the `.trim()` applied to calendar ids
(structural implementation, so that concrete runs evaluate). -/
def trimStr (s : String) : String :=
  ⟨((s.toList.dropWhile Char.isWhitespace).reverse.dropWhile Char.isWhitespace).reverse⟩

/-- The configuration guard and normalization at the top of `performSync`:
`!settings?.targetCalendar || !settings?.sourceCalendars?.length` throws, then
the ids are `.trim()`-med. -/
def checkSettings : Option Settings → Except String (String × List String × Int)
  | none => .error NOT_CONFIGURED
  | some s =>
    match s.targetCalendar with
    | none => .error NOT_CONFIGURED
    | some tc =>
      if tc = "" ∨ s.sourceCalendars = [] then .error NOT_CONFIGURED
      else .ok (trimStr tc, s.sourceCalendars.map trimStr, s.weeksAhead)

/-- Accumulator of the source-calendar loop of `performSync`: calls issued so
far, busy events created so far (with the next fresh-id index), and the
`eventsToKeep` set. -/
structure RunAcc where
  calls : List Call
  created : List CalEvent
  nextId : Nat
  keep : List String
deriving Repr

/-- Initial accumulator of a run: the target fetch already performed, nothing
created, `eventsToKeep` empty. -/
def initAcc (tgt : String) (range : Int × Int) : RunAcc :=
  { calls := [Call.fetch tgt range.1 range.2], created := [], nextId := 0, keep := [] }

/-- Body of the inner `for (const event of events)` loop of `performSync`:
skip the event unless both concrete timestamps are present and the
`getDate()` guard passes; create a busy event when the slot key is not in
`existingSyncedMap` (which is never updated during the run); add the key to
`eventsToKeep` either way. -/
def processEvent (existing : List (String × CalEvent)) (mkId : Nat → String)
    (tgt : String) (acc : RunAcc) (event : CalEvent) : RunAcc :=
  match slotKey? event with
  | none => acc
  | some eventKey =>
    let acc :=
      if mapHas existing eventKey then acc
      else
        let res := createBusyEvent tgt event (mkId acc.nextId)
        { acc with
          calls := acc.calls ++ res.2
          created := acc.created ++ res.1.toList
          nextId := acc.nextId + 1 }
    { acc with keep := setAdd acc.keep eventKey }

/-- The `for (const sourceCalendar of sourceCalendars)` loop of `performSync`:
fetch each source calendar (a single unpaged request) and process its events;
a failing fetch aborts the run with `FETCH_FAILED`. -/
def processSources (prov : Provider) (existing : List (String × CalEvent))
    (mkId : Nat → String) (tgt : String) (range : Int × Int) :
    RunAcc → List String → RunAcc × Except String Unit
  | acc, [] => (acc, .ok ())
  | acc, sourceCalendar :: rest =>
    let acc := { acc with calls := acc.calls ++ [Call.fetch sourceCalendar range.1 range.2] }
    if prov.fetchOk sourceCalendar then
      processSources prov existing mkId tgt range
        ((fetchEvents prov sourceCalendar none).foldl (processEvent existing mkId tgt) acc) rest
    else (acc, .error FETCH_FAILED)

/-- The delete loop of `performSync`: walk `existingSyncedMap` in iteration
order, DELETE every entry whose key is not in `eventsToKeep`; the first
non-`ok` response aborts.  Returns the calls issued, the ids actually deleted
remotely, and the outcome. -/
def deletePhase (prov : Provider) (tgt : String) (keep : List String) :
    List (String × CalEvent) → List Call × List String × Except String Unit
  | [] => ([], [], .ok ())
  | (k, ev) :: rest =>
    if keep.contains k then deletePhase prov tgt keep rest
    else
      if prov.deleteOk ev.id then
        let res := deletePhase prov tgt keep rest
        (Call.delete tgt ev.id :: res.1, ev.id :: res.2.1, res.2.2)
      else ([Call.delete tgt ev.id], [], .error DELETE_FAILED)

/-- Contents of the calendars after a run: the target loses the remotely
deleted ids and gains the created busy events; other calendars are
untouched. -/
def applyTarget (world : String → List CalEvent) (tgt : String)
    (deletedIds : List String) (created : List CalEvent) : String → List CalEvent :=
  fun c =>
    if c = tgt then (world tgt).filter (fun e => ¬ deletedIds.contains e.id) ++ created
    else world c

/-- The `existingSyncedMap` of `performSync`: the target calendar's events,
filtered to the tag, keyed by `_createEventKey` (a JS `Map`, so a duplicated
key keeps the last event). -/
def existingMap (prov : Provider) (tgt : String) : List (String × CalEvent) :=
  mapOfEntries
    (((fetchEvents prov tgt none).filter (fun e => isSyncedTag e)).map
      (fun e => (createEventKey e, e)))

/-- Result of one `performSync` invocation. -/
structure SyncResult where
  state : SyncState
  calls : List Call
  outcome : Except String Unit
  world : String → List CalEvent

/-- The `performSync` of `sync.js`.  `mkId` supplies the ids the target
calendar assigns to created events; `now` is the clock reading at the top of
the run.  The latch is taken on entry and released by the `finally` clause on
every path; `_lastSyncTime` is assigned only after the delete loop has
completed. -/
def performSync (st : SyncState) (settings : Option Settings) (prov : Provider)
    (mkId : Nat → String) (now : Int) : SyncResult :=
  if st.syncInProgress then
    { state := st, calls := [], outcome := .ok (), world := prov.events }
  else
    match checkSettings settings with
    | .error e =>
      { state := { st with syncInProgress := false }, calls := []
        outcome := .error e, world := prov.events }
    | .ok (targetCalendar, sourceCalendars, weeksAhead) =>
      let range := syncDateRange now weeksAhead
      let fetchTgt := [Call.fetch targetCalendar range.1 range.2]
      if prov.fetchOk targetCalendar then
        let existingSyncedMap := existingMap prov targetCalendar
        let acc0 : RunAcc := initAcc targetCalendar range
        let res := processSources prov existingSyncedMap mkId targetCalendar range
          acc0 sourceCalendars
        match res.2 with
        | .error e =>
          { state := { st with syncInProgress := false }, calls := res.1.calls
            outcome := .error e
            world := applyTarget prov.events targetCalendar [] res.1.created }
        | .ok () =>
          let del := deletePhase prov targetCalendar res.1.keep existingSyncedMap
          let world := applyTarget prov.events targetCalendar del.2.1 res.1.created
          match del.2.2 with
          | .error e =>
            { state := { st with syncInProgress := false }
              calls := res.1.calls ++ del.1, outcome := .error e, world := world }
          | .ok () =>
            { state := { syncInProgress := false, lastSyncTime := some now }
              calls := res.1.calls ++ del.1, outcome := .ok (), world := world }
      else
        { state := { st with syncInProgress := false }, calls := fetchTgt
          outcome := .error FETCH_FAILED, world := prov.events }

/-- Reading `nextPageToken` off the value `fetchEvents` returned: that value
is the `items` array (a JS Array), so the property access is `undefined`. -/
def arrayNextPageToken (_ : List CalEvent) : Option String :=
  none

/-- The `do … while (pageToken)` loop of `cleanupSyncedEvents`.  The fuel
bounds the iteration count; since the token read from the items array is
always `undefined`, the loop in fact exits after its first pass. -/
def cleanupFetchPages (prov : Provider) (calendarId : String) (startTime endTime : Int) :
    Nat → Option String → List CalEvent → List Call → List CalEvent × List Call
  | 0, _, allEvents, calls => (allEvents, calls)
  | fuel + 1, pageToken, allEvents, calls =>
    let data := fetchEvents prov calendarId pageToken
    let calls := calls ++ [Call.fetch calendarId startTime endTime]
    let allEvents := allEvents ++ data
    match arrayNextPageToken data with
    | some t => cleanupFetchPages prov calendarId startTime endTime fuel (some t) allEvents calls
    | none => (allEvents, calls)

/-- The delete loop of `cleanupSyncedEvents`: DELETE every filtered event; the
first non-`ok` response aborts. -/
def cleanupDeleteLoop (prov : Provider) (calendarId : String) :
    List CalEvent → List Call × List String × Except String Unit
  | [] => ([], [], .ok ())
  | ev :: rest =>
    if prov.deleteOk ev.id then
      let res := cleanupDeleteLoop prov calendarId rest
      (Call.delete calendarId ev.id :: res.1, ev.id :: res.2.1, res.2.2)
    else ([Call.delete calendarId ev.id], [], .error DELETE_FAILED)

/-- The `cleanupSyncedEvents` of `calendar.js`: page through the window (the
loop degenerates to one page, see `arrayNextPageToken`), filter to tagged
events, delete them all, and return the number found.  Returns the calls
issued, the ids deleted remotely, and the outcome. -/
def cleanupSyncedEvents (prov : Provider) (calendarId : String) (startTime endTime : Int) :
    List Call × List String × Except String Nat :=
  if prov.fetchOk calendarId then
    let res := cleanupFetchPages prov calendarId startTime endTime 1000 none [] []
    let syncedEvents := res.1.filter (fun e => isSyncedTag e)
    let del := cleanupDeleteLoop prov calendarId syncedEvents
    (res.2 ++ del.1, del.2.1,
      match del.2.2 with
      | .ok () => .ok syncedEvents.length
      | .error e => .error e)
  else ([Call.fetch calendarId startTime endTime], [], .error FETCH_FAILED)

/-- The `cleanupAll` of `sync.js`: configuration guard, window from
`_getDateRange(weeksAhead || 1)`, then `cleanupSyncedEvents`; every failure is
rewrapped as `CLEANUP_FAILED`, and the count returned by
`cleanupSyncedEvents` is discarded. -/
def cleanupAll (settings : Option Settings) (prov : Provider) (now : Int) :
    List Call × List String × Except String Unit :=
  match settings with
  | none => ([], [], .error CLEANUP_FAILED)
  | some s =>
    match s.targetCalendar with
    | none => ([], [], .error CLEANUP_FAILED)
    | some tc =>
      if tc = "" then ([], [], .error CLEANUP_FAILED)
      else
        let w := if s.weeksAhead = 0 then 1 else s.weeksAhead
        let range := getDateRange now w
        let res := cleanupSyncedEvents prov tc range.1 range.2.2
        (res.1, res.2.1,
          match res.2.2 with
          | .ok _ => .ok ()
          | .error _ => .error CLEANUP_FAILED)

/-- Concatenation of the source calendars' (first-page) events, in the order
the source loop visits them. -/
def sourceEvents (prov : Provider) (srcs : List String) : List CalEvent :=
  srcs.foldr (fun s acc => prov.events s ++ acc) []

/-- The reconciliation window in the words of the spec ("starts 7 days before
now … ends weeksAhead weeks after now — today at start-of-day to the window
end at end-of-day"): start-of-day lower bound, end-of-day upper bound. -/
def specReconciliationWindow (now : Int) (weeksAhead : Int) : Int × Int :=
  (startOfDay (now - 7 * dayMs), startOfDay (now + weeksAhead * 7 * dayMs) + (dayMs - 1))

/-! Concrete fixtures used by witnesses and counterexamples.  Day numbers:
2024-06-01 is day 19875 since the epoch, 2024-06-03 is day 19877, 2024-07-01
is day 19905. -/

def dtA : DateTime := ⟨"2024-06-03T09:00:00Z", 19877 * 86400000 + 9 * 3600000⟩

def dtB : DateTime := ⟨"2024-06-03T09:30:00Z", 19877 * 86400000 + 9 * 3600000 + 1800000⟩

def dtJun1 : DateTime := ⟨"2024-06-01T12:00:00Z", 19875 * 86400000 + 12 * 3600000⟩

def dtJul1 : DateTime := ⟨"2024-07-01T12:00:00Z", 19905 * 86400000 + 12 * 3600000⟩

/-- A concretely-timed event with the given id, bounds, and tag state. -/
def mkTimed (id : String) (s e : DateTime) (tag : Bool) : CalEvent :=
  { id := id
    start := some { dateTime := some s, timeZone := none }
    end_ := some { dateTime := some e, timeZone := none }
    syncedEvent := if tag then some "true" else none }

def st0 : SyncState := ⟨false, none⟩

def mkId0 : Nat → String := fun n => "new" ++ toString n

/-- Two source calendars holding one eligible event each, with identical
(startTime, endTime); the target calendar is empty. -/
def srcEv1 : CalEvent := mkTimed "s1e" dtA dtB false

def srcEv2 : CalEvent := mkTimed "s2e" dtA dtB false

def provDup : Provider :=
  { page := fun c _ =>
      if c = "src1" then ⟨[srcEv1], none⟩
      else if c = "src2" then ⟨[srcEv2], none⟩
      else ⟨[], none⟩
    fetchOk := fun _ => true
    deleteOk := fun _ => true }

def settingsDup : Settings := ⟨some "tgt", ["src1", "src2"], 1⟩

def settings1 : Settings := ⟨some "tgt", ["src1"], 1⟩

/-- Target calendar holding two tagged events with the same slot key, no
source events: the state that breaks second-run quiescence. -/
def tagEv1 : CalEvent := mkTimed "t1" dtA dtB true

def tagEv2 : CalEvent := mkTimed "t2" dtA dtB true

def provDupTgt : Provider :=
  { page := fun c _ => if c = "tgt" then ⟨[tagEv1, tagEv2], none⟩ else ⟨[], none⟩
    fetchOk := fun _ => true
    deleteOk := fun _ => true }

/-- A provider whose target page is replaced by the given list (what the
target calendar holds after an earlier run); all other calendars unchanged. -/
def Provider.withTargetPage (prov : Provider) (tgt : String) (items : List CalEvent) :
    Provider :=
  { prov with page := fun c tok => if c = tgt then ⟨items, none⟩ else prov.page c tok }

/-- A source event spanning 2024-06-01T12:00Z to 2024-07-01T12:00Z: start and
end on different calendar days but with equal day-of-month. -/
def monthEv : CalEvent := mkTimed "m1" dtJun1 dtJul1 false

def provMonth : Provider :=
  { page := fun c _ => if c = "src1" then ⟨[monthEv], none⟩ else ⟨[], none⟩
    fetchOk := fun _ => true
    deleteOk := fun _ => true }

/-- An event with no concrete end timestamp (all-day style). -/
def noTimeEv : CalEvent :=
  { id := "nt1"
    start := some { dateTime := some dtA, timeZone := none }
    end_ := some { dateTime := none, timeZone := none }
    syncedEvent := none }

def provNoTime : Provider :=
  { page := fun c _ => if c = "src1" then ⟨[noTimeEv], none⟩ else ⟨[], none⟩
    fetchOk := fun _ => true
    deleteOk := fun _ => true }

/-- A target calendar whose listing has two pages, each holding one tagged
event; the first page carries a continuation token. -/
def pg1Ev : CalEvent := mkTimed "p1" dtA dtB true

def pg2Ev : CalEvent := mkTimed "p2" dtJun1 dtJul1 true

def provPaged : Provider :=
  { page := fun c tok =>
      if c = "tgt" then
        (if tok = none then ⟨[pg1Ev], some "tok2"⟩ else ⟨[pg2Ev], none⟩)
      else ⟨[], none⟩
    fetchOk := fun _ => true
    deleteOk := fun _ => true }

/-- A target holding one stale tagged event whose DELETE comes back
not-found (`response.ok === false`). -/
def provDel404 : Provider :=
  { page := fun c _ => if c = "tgt" then ⟨[tagEv1], none⟩ else ⟨[], none⟩
    fetchOk := fun _ => true
    deleteOk := fun _ => false }

/-- Cleanup scenario: target holds 3 tagged and 2 untagged events in range. -/
def unt1 : CalEvent := mkTimed "u1" dtA dtB false

def unt2 : CalEvent := mkTimed "u2" dtA dtB false

def tagEv3 : CalEvent := mkTimed "t3" dtJun1 dtJun1 true

def provClean : Provider :=
  { page := fun c _ =>
      if c = "tgt" then ⟨[tagEv1, unt1, tagEv2, unt2, tagEv3], none⟩ else ⟨[], none⟩
    fetchOk := fun _ => true
    deleteOk := fun _ => true }

/-! Lemmas about the JS collection models (`Set`, `Map`, `Array.contains`). -/

theorem contains_iff {s : List String} {k : String} :
    s.contains k = true ↔ k ∈ s :=
  List.elem_iff

theorem mem_setAdd {s : List String} {k a : String} :
    a ∈ setAdd s k ↔ a ∈ s ∨ a = k := by
  unfold setAdd
  split
  · rename_i h
    exact ⟨Or.inl, fun h' => h'.elim id (fun e => e ▸ contains_iff.mp h)⟩
  · simp

theorem mapHas_iff {m : List (String × CalEvent)} {k : String} :
    mapHas m k = true ↔ ∃ p ∈ m, p.1 = k := by
  simp [mapHas, List.any_eq_true]

theorem mapHas_mapSet {m : List (String × CalEvent)} {k a : String} {v : CalEvent} :
    mapHas (mapSet m k v) a = true ↔ mapHas m a = true ∨ a = k := by
  unfold mapSet
  split
  · rename_i h
    rw [mapHas_iff, mapHas_iff]
    constructor
    · rintro ⟨p, hp, hpa⟩
      rcases List.mem_map.mp hp with ⟨q, hq, rfl⟩
      by_cases hqk : q.1 = k
      · simp only [hqk, if_pos] at hpa
        exact Or.inr hpa.symm
      · simp only [hqk, if_neg, not_false_iff] at hpa
        exact Or.inl ⟨q, hq, hpa⟩
    · rintro (⟨p, hp, hpa⟩ | rfl)
      · by_cases hpk : p.1 = k
        · rcases List.any_eq_true.mp h with ⟨q, hq, hq1⟩
          simp only [decide_eq_true_eq] at hq1
          refine ⟨(k, v), List.mem_map.mpr ⟨q, hq, by simp [hq1]⟩, ?_⟩
          exact hpk ▸ hpa
        · exact ⟨p, List.mem_map.mpr ⟨p, hp, by simp [hpk]⟩, hpa⟩
      · rcases List.any_eq_true.mp h with ⟨q, hq, hq1⟩
        simp only [decide_eq_true_eq] at hq1
        exact ⟨(a, v), List.mem_map.mpr ⟨q, hq, by simp [hq1]⟩, rfl⟩
  · simp only [mapHas, List.any_append, List.any_cons, List.any_nil,
      Bool.or_false, Bool.or_eq_true, decide_eq_true_eq]
    exact or_congr Iff.rfl eq_comm

theorem mapHas_foldl (l : List (String × CalEvent)) :
    ∀ (m : List (String × CalEvent)) (k : String),
      mapHas (l.foldl (fun m p => mapSet m p.1 p.2) m) k = true ↔
        mapHas m k = true ∨ ∃ p ∈ l, p.1 = k := by
  induction l with
  | nil => simp
  | cons q l ih =>
    intro m k
    simp only [List.foldl_cons]
    rw [ih, mapHas_mapSet]
    simp only [List.mem_cons]
    constructor
    · rintro ((h | rfl) | ⟨p, hp, hpk⟩)
      · exact Or.inl h
      · exact Or.inr ⟨q, Or.inl rfl, rfl⟩
      · exact Or.inr ⟨p, Or.inr hp, hpk⟩
    · rintro (h | ⟨p, (rfl | hp), hpk⟩)
      · exact Or.inl (Or.inl h)
      · exact Or.inl (Or.inr hpk.symm)
      · exact Or.inr ⟨p, hp, hpk⟩

theorem mapHas_mapOfEntries {l : List (String × CalEvent)} {k : String} :
    mapHas (mapOfEntries l) k = true ↔ ∃ p ∈ l, p.1 = k := by
  rw [mapOfEntries, mapHas_foldl]
  simp [mapHas]

theorem mem_mapSet {m : List (String × CalEvent)} {k : String} {v : CalEvent}
    {q : String × CalEvent} (h : q ∈ mapSet m k v) : q ∈ m ∨ q = (k, v) := by
  unfold mapSet at h
  split at h
  · rcases List.mem_map.mp h with ⟨p, hp, rfl⟩
    by_cases hpk : p.1 = k
    · simp [hpk]
    · simp only [hpk, if_neg, not_false_iff]
      exact Or.inl hp
  · rcases List.mem_append.mp h with h' | h'
    · exact Or.inl h'
    · exact Or.inr (List.mem_singleton.mp h')

theorem mem_foldl_mapSet (l : List (String × CalEvent)) :
    ∀ (m : List (String × CalEvent)) (q : String × CalEvent),
      q ∈ l.foldl (fun m p => mapSet m p.1 p.2) m → q ∈ m ∨ q ∈ l := by
  induction l with
  | nil => exact fun m q h => Or.inl h
  | cons p l ih =>
    intro m q h
    rcases ih _ _ h with h' | h'
    · rcases mem_mapSet h' with h'' | h''
      · exact Or.inl h''
      · exact Or.inr (by simp [h''])
    · exact Or.inr (List.mem_cons_of_mem _ h')

theorem mem_mapOfEntries {l : List (String × CalEvent)} {q : String × CalEvent}
    (h : q ∈ mapOfEntries l) : q ∈ l := by
  rcases mem_foldl_mapSet l [] q h with h' | h'
  · exact absurd h' (List.not_mem_nil q)
  · exact h'

theorem mapSet_of_not_has {m : List (String × CalEvent)} {k : String} {v : CalEvent}
    (h : mapHas m k = false) : mapSet m k v = m ++ [(k, v)] := by
  have h' : (m.any fun p => p.1 = k) = false := h
  unfold mapSet
  simp [h']

theorem foldl_mapSet_of_disjoint (l : List (String × CalEvent)) :
    ∀ (m : List (String × CalEvent)),
      (∀ p ∈ l, mapHas m p.1 = false) → (l.map Prod.fst).Nodup →
      l.foldl (fun m p => mapSet m p.1 p.2) m = m ++ l := by
  induction l with
  | nil => intro m _ _; simp
  | cons p l ih =>
    intro m hdisj hnd
    simp only [List.foldl_cons]
    have h1 : mapSet m p.1 p.2 = m ++ [p] := by
      rw [mapSet_of_not_has (hdisj p (List.mem_cons_self _ _))]
    have hnd' : p.1 ∉ l.map Prod.fst ∧ (l.map Prod.fst).Nodup := by
      rw [List.map_cons] at hnd
      exact List.nodup_cons.mp hnd
    rw [h1, ih (m ++ [p]) ?_ hnd'.2]
    · simp
    · intro q hq
      have h2 := hdisj q (List.mem_cons_of_mem _ hq)
      have h3 : q.1 ≠ p.1 := by
        intro he
        exact hnd'.1 (he ▸ List.mem_map.mpr ⟨q, hq, rfl⟩)
      simp only [mapHas, List.any_append, Bool.or_eq_false_iff] at h2 ⊢
      refine ⟨h2, ?_⟩
      simp only [List.any_cons, List.any_nil, Bool.or_false]
      exact decide_eq_false fun he => h3 he.symm

theorem mapOfEntries_eq_self {l : List (String × CalEvent)}
    (hnd : (l.map Prod.fst).Nodup) : mapOfEntries l = l := by
  rw [mapOfEntries, foldl_mapSet_of_disjoint l [] (fun p _ => by simp [mapHas]) hnd]
  simp

/-! Lemmas about the source-calendar loop. -/

theorem busyEventOf_of_slotKey {ev : CalEvent} {k : String} (h : slotKey? ev = some k)
    (newId : String) :
    ∃ b, busyEventOf ev newId = some b ∧ createEventKey b = k ∧
      isSyncedTag b = true ∧ b.id = newId := by
  cases h1 : ev.start.bind EventBoundary.dateTime with
  | none =>
    simp only [slotKey?, h1] at h
    exact Option.noConfusion h
  | some s =>
    cases h2 : ev.end_.bind EventBoundary.dateTime with
    | none =>
      simp only [slotKey?, h1, h2] at h
      exact Option.noConfusion h
    | some e =>
      simp only [slotKey?, h1, h2] at h
      by_cases h3 : getDate s.ms = getDate e.ms
      · simp only [if_pos h3, Option.some.injEq] at h
        subst h
        refine ⟨{ id := newId
                  start := some { dateTime := some s
                                  timeZone := ev.start.bind EventBoundary.timeZone }
                  end_ := some { dateTime := some e
                                 timeZone := ev.end_.bind EventBoundary.timeZone }
                  syncedEvent := some "true" }, ?_, ?_, rfl, rfl⟩
        · simp only [busyEventOf, h1, h2, if_pos h3]
        · simp [createEventKey, dtStr]
      · simp only [if_neg h3] at h
        exact Option.noConfusion h

theorem isSyncedTag_of_busyEventOf {ev b : CalEvent} {newId : String}
    (h : busyEventOf ev newId = some b) : isSyncedTag b = true := by
  unfold busyEventOf at h
  split at h
  · split at h
    · cases h
      rfl
    · exact absurd h (by simp)
  · exact absurd h (by simp)

theorem processEvent_none {existing : List (String × CalEvent)} {mkId : Nat → String}
    {tgt : String} {acc : RunAcc} {ev : CalEvent} (h : slotKey? ev = none) :
    processEvent existing mkId tgt acc ev = acc := by
  simp [processEvent, h]

theorem processEvent_has {existing : List (String × CalEvent)} {mkId : Nat → String}
    {tgt : String} {acc : RunAcc} {ev : CalEvent} {k : String}
    (h : slotKey? ev = some k) (h2 : mapHas existing k = true) :
    processEvent existing mkId tgt acc ev = { acc with keep := setAdd acc.keep k } := by
  simp [processEvent, h, h2]

theorem processEvent_new {existing : List (String × CalEvent)} {mkId : Nat → String}
    {tgt : String} {acc : RunAcc} {ev : CalEvent} {k : String}
    (h : slotKey? ev = some k) (h2 : mapHas existing k = false) :
    ∃ b, busyEventOf ev (mkId acc.nextId) = some b ∧ createEventKey b = k ∧
      isSyncedTag b = true ∧
      processEvent existing mkId tgt acc ev =
        { calls := acc.calls ++ [Call.create tgt b], created := acc.created ++ [b]
          nextId := acc.nextId + 1, keep := setAdd acc.keep k } := by
  rcases busyEventOf_of_slotKey h (mkId acc.nextId) with ⟨b, hb, hbk, hbt, _⟩
  refine ⟨b, hb, hbk, hbt, ?_⟩
  simp [processEvent, h, h2, createBusyEvent, hb]

theorem foldl_processEvent_keep (existing : List (String × CalEvent)) (mkId : Nat → String)
    (tgt : String) (l : List CalEvent) :
    ∀ (acc : RunAcc) (k : String),
      k ∈ (l.foldl (processEvent existing mkId tgt) acc).keep ↔
        k ∈ acc.keep ∨ k ∈ eligibleKeys l := by
  induction l with
  | nil => simp [eligibleKeys]
  | cons ev l ih =>
    intro acc k
    simp only [List.foldl_cons]
    rw [ih]
    cases h : slotKey? ev with
    | none =>
      rw [processEvent_none h]
      simp [eligibleKeys, List.filterMap_cons, h]
    | some k' =>
      have hk : eligibleKeys (ev :: l) = k' :: eligibleKeys l := by
        simp [eligibleKeys, List.filterMap_cons, h]
      rw [hk]
      cases h2 : mapHas existing k' with
      | true =>
        rw [processEvent_has h h2]
        simp only [List.mem_cons]
        rw [mem_setAdd]
        tauto
      | false =>
        rcases @processEvent_new existing mkId tgt acc _ _ h h2 with ⟨b, _, _, _, heq⟩
        rw [heq]
        simp only [List.mem_cons]
        rw [mem_setAdd]
        tauto

theorem foldl_processEvent_calls_shape (existing : List (String × CalEvent))
    (mkId : Nat → String) (tgt : String) (l : List CalEvent) :
    ∀ acc : RunAcc, ∃ newCalls,
      (l.foldl (processEvent existing mkId tgt) acc).calls = acc.calls ++ newCalls ∧
        ∀ c ∈ newCalls, ∃ body, c = Call.create tgt body := by
  induction l with
  | nil => exact fun acc => ⟨[], by simp, by simp⟩
  | cons ev l ih =>
    intro acc
    simp only [List.foldl_cons]
    cases h : slotKey? ev with
    | none =>
      rw [processEvent_none h]
      exact ih acc
    | some k' =>
      cases h2 : mapHas existing k' with
      | true =>
        rw [processEvent_has h h2]
        exact ih _
      | false =>
        rcases @processEvent_new existing mkId tgt acc _ _ h h2 with ⟨b, _, _, _, heq⟩
        rw [heq]
        rcases ih { calls := acc.calls ++ [Call.create tgt b], created := acc.created ++ [b]
                    nextId := acc.nextId + 1, keep := setAdd acc.keep k' } with ⟨nc, hnc, hall⟩
        refine ⟨[Call.create tgt b] ++ nc, ?_, ?_⟩
        · rw [hnc]
          simp
        · intro c hc
          rcases List.mem_append.mp hc with hc | hc
          · exact ⟨b, List.mem_singleton.mp hc⟩
          · exact hall c hc

theorem foldl_processEvent_calls_of_has (existing : List (String × CalEvent))
    (mkId : Nat → String) (tgt : String) (l : List CalEvent)
    (hhas : ∀ k ∈ eligibleKeys l, mapHas existing k = true) :
    ∀ acc : RunAcc, (l.foldl (processEvent existing mkId tgt) acc).calls = acc.calls := by
  induction l with
  | nil => exact fun _ => rfl
  | cons ev l ih =>
    intro acc
    simp only [List.foldl_cons]
    cases h : slotKey? ev with
    | none =>
      rw [processEvent_none h]
      exact ih (fun k hk => hhas k (by simp [eligibleKeys, List.filterMap_cons, h] at hk ⊢; exact hk)) acc
    | some k' =>
      have hk' : mapHas existing k' = true :=
        hhas k' (by simp [eligibleKeys, List.filterMap_cons, h])
      rw [processEvent_has h hk']
      exact ih (fun k hk => hhas k (by simp [eligibleKeys, List.filterMap_cons, h] at hk ⊢; exact Or.inr hk)) _

theorem foldl_processEvent_created (existing : List (String × CalEvent))
    (mkId : Nat → String) (tgt : String) (l : List CalEvent) :
    ∀ (acc : RunAcc) (k : String),
      k ∈ ((l.foldl (processEvent existing mkId tgt) acc).created).map createEventKey ↔
        k ∈ acc.created.map createEventKey ∨
          (k ∈ eligibleKeys l ∧ mapHas existing k = false) := by
  induction l with
  | nil => simp [eligibleKeys]
  | cons ev l ih =>
    intro acc k
    simp only [List.foldl_cons]
    rw [ih]
    cases h : slotKey? ev with
    | none =>
      rw [processEvent_none h]
      simp [eligibleKeys, List.filterMap_cons, h]
    | some k' =>
      have hk : eligibleKeys (ev :: l) = k' :: eligibleKeys l := by
        simp [eligibleKeys, List.filterMap_cons, h]
      rw [hk]
      cases h2 : mapHas existing k' with
      | true =>
        rw [processEvent_has h h2]
        simp only [List.mem_cons]
        constructor
        · rintro (h' | h')
          · exact Or.inl h'
          · exact Or.inr ⟨Or.inr h'.1, h'.2⟩
        · rintro (h' | ⟨(rfl | h'), hm⟩)
          · exact Or.inl h'
          · rw [h2] at hm
            exact Bool.noConfusion hm
          · exact Or.inr ⟨h', hm⟩
      | false =>
        rcases @processEvent_new existing mkId tgt acc _ _ h h2 with ⟨b, _, hbk, _, heq⟩
        rw [heq]
        simp only [List.map_append, List.mem_append, List.map_cons, List.map_nil,
          List.mem_cons, List.not_mem_nil, or_false]
        constructor
        · rintro ((h' | h') | h')
          · exact Or.inl h'
          · subst h'
            exact Or.inr ⟨Or.inl hbk, hbk ▸ h2⟩
          · exact Or.inr ⟨Or.inr h'.1, h'.2⟩
        · rintro (h' | ⟨(rfl | h'), hm⟩)
          · exact Or.inl (Or.inl h')
          · exact Or.inl (Or.inr hbk.symm)
          · exact Or.inr ⟨h', hm⟩

theorem foldl_processEvent_created_tag (existing : List (String × CalEvent))
    (mkId : Nat → String) (tgt : String) (l : List CalEvent) :
    ∀ (acc : RunAcc) (b : CalEvent),
      b ∈ (l.foldl (processEvent existing mkId tgt) acc).created →
        b ∈ acc.created ∨ isSyncedTag b = true := by
  induction l with
  | nil => exact fun acc b h => Or.inl h
  | cons ev l ih =>
    intro acc b h
    simp only [List.foldl_cons] at h
    cases he : slotKey? ev with
    | none =>
      rw [processEvent_none he] at h
      exact ih acc b h
    | some k' =>
      cases h2 : mapHas existing k' with
      | true =>
        rw [processEvent_has he h2] at h
        exact ih { acc with keep := setAdd acc.keep k' } b h
      | false =>
        rcases @processEvent_new existing mkId tgt acc _ _ he h2 with ⟨b', _, _, hbt, heq⟩
        rw [heq] at h
        rcases ih _ b h with h' | h'
        · rcases List.mem_append.mp h' with h'' | h''
          · exact Or.inl h''
          · rw [List.mem_singleton.mp h'']
            exact Or.inr hbt
        · exact Or.inr h'

theorem fetchEvents_none (prov : Provider) (c : String) :
    fetchEvents prov c none = prov.events c := rfl

theorem sourceEvents_cons (prov : Provider) (s : String) (rest : List String) :
    sourceEvents prov (s :: rest) = prov.events s ++ sourceEvents prov rest := rfl

theorem eligibleKeys_append (l1 l2 : List CalEvent) :
    eligibleKeys (l1 ++ l2) = eligibleKeys l1 ++ eligibleKeys l2 :=
  List.filterMap_append l1 l2 slotKey?

theorem processSources_ok (prov : Provider) (existing : List (String × CalEvent))
    (mkId : Nat → String) (tgt : String) (range : Int × Int) (srcs : List String)
    (hf : ∀ s ∈ srcs, prov.fetchOk s = true) :
    ∀ acc, (processSources prov existing mkId tgt range acc srcs).2 = .ok () := by
  induction srcs with
  | nil => intro acc; rfl
  | cons s rest ih =>
    intro acc
    simp only [processSources]
    rw [if_pos (hf s (List.mem_cons_self _ _))]
    exact ih (fun s' hs' => hf s' (List.mem_cons_of_mem _ hs')) _

theorem processSources_keep (prov : Provider) (existing : List (String × CalEvent))
    (mkId : Nat → String) (tgt : String) (range : Int × Int) (srcs : List String)
    (hf : ∀ s ∈ srcs, prov.fetchOk s = true) :
    ∀ acc k, k ∈ (processSources prov existing mkId tgt range acc srcs).1.keep ↔
      k ∈ acc.keep ∨ k ∈ eligibleKeys (sourceEvents prov srcs) := by
  induction srcs with
  | nil => simp [processSources, sourceEvents, eligibleKeys]
  | cons s rest ih =>
    intro acc k
    simp only [processSources]
    rw [if_pos (hf s (List.mem_cons_self _ _))]
    rw [ih (fun s' hs' => hf s' (List.mem_cons_of_mem _ hs')) _ k]
    rw [foldl_processEvent_keep]
    rw [fetchEvents_none, sourceEvents_cons, eligibleKeys_append]
    simp only [List.mem_append]
    tauto

theorem processSources_calls_shape (prov : Provider) (existing : List (String × CalEvent))
    (mkId : Nat → String) (tgt : String) (range : Int × Int) (srcs : List String) :
    ∀ acc, ∃ newCalls,
      (processSources prov existing mkId tgt range acc srcs).1.calls = acc.calls ++ newCalls ∧
        ∀ c ∈ newCalls, (∃ body, c = Call.create tgt body) ∨
          ∃ s, c = Call.fetch s range.1 range.2 := by
  induction srcs with
  | nil => exact fun acc => ⟨[], by simp [processSources], by simp⟩
  | cons s rest ih =>
    intro acc
    simp only [processSources]
    by_cases hfs : prov.fetchOk s = true
    · rw [if_pos hfs]
      rcases foldl_processEvent_calls_shape existing mkId tgt (fetchEvents prov s none)
        { acc with calls := acc.calls ++ [Call.fetch s range.1 range.2] } with ⟨nc1, hnc1, hall1⟩
      rcases ih ((fetchEvents prov s none).foldl (processEvent existing mkId tgt)
          { acc with calls := acc.calls ++ [Call.fetch s range.1 range.2] }) with ⟨nc2, hnc2, hall2⟩
      refine ⟨[Call.fetch s range.1 range.2] ++ nc1 ++ nc2, ?_, ?_⟩
      · rw [hnc2, hnc1]
        simp
      · intro c hc
        rcases List.mem_append.mp hc with hc | hc
        · rcases List.mem_append.mp hc with hc | hc
          · rw [List.mem_singleton.mp hc]
            exact Or.inr ⟨s, rfl⟩
          · exact Or.inl (hall1 c hc)
        · exact hall2 c hc
    · rw [if_neg hfs]
      refine ⟨[Call.fetch s range.1 range.2], rfl, ?_⟩
      intro c hc
      rw [List.mem_singleton.mp hc]
      exact Or.inr ⟨s, rfl⟩

theorem processSources_createCount (prov : Provider) (existing : List (String × CalEvent))
    (mkId : Nat → String) (tgt : String) (range : Int × Int) (srcs : List String)
    (hf : ∀ s ∈ srcs, prov.fetchOk s = true)
    (hhas : ∀ k ∈ eligibleKeys (sourceEvents prov srcs), mapHas existing k = true) :
    ∀ acc, ((processSources prov existing mkId tgt range acc srcs).1.calls).countP isCreateCall =
      acc.calls.countP isCreateCall := by
  induction srcs with
  | nil => intro acc; rfl
  | cons s rest ih =>
    intro acc
    simp only [processSources]
    rw [if_pos (hf s (List.mem_cons_self _ _))]
    have hhas1 : ∀ k ∈ eligibleKeys (fetchEvents prov s none), mapHas existing k = true := by
      intro k hk
      refine hhas k ?_
      rw [sourceEvents_cons, eligibleKeys_append]
      exact List.mem_append.mpr (Or.inl hk)
    have hhas2 : ∀ k ∈ eligibleKeys (sourceEvents prov rest), mapHas existing k = true := by
      intro k hk
      refine hhas k ?_
      rw [sourceEvents_cons, eligibleKeys_append]
      exact List.mem_append.mpr (Or.inr hk)
    rw [ih (fun s' hs' => hf s' (List.mem_cons_of_mem _ hs')) hhas2]
    rw [foldl_processEvent_calls_of_has existing mkId tgt _ hhas1]
    simp [List.countP_append, isCreateCall]

theorem processSources_created (prov : Provider) (existing : List (String × CalEvent))
    (mkId : Nat → String) (tgt : String) (range : Int × Int) (srcs : List String)
    (hf : ∀ s ∈ srcs, prov.fetchOk s = true) :
    ∀ acc k, k ∈ ((processSources prov existing mkId tgt range acc srcs).1.created).map createEventKey ↔
      k ∈ acc.created.map createEventKey ∨
        (k ∈ eligibleKeys (sourceEvents prov srcs) ∧ mapHas existing k = false) := by
  induction srcs with
  | nil => simp [processSources, sourceEvents, eligibleKeys]
  | cons s rest ih =>
    intro acc k
    simp only [processSources]
    rw [if_pos (hf s (List.mem_cons_self _ _))]
    rw [ih (fun s' hs' => hf s' (List.mem_cons_of_mem _ hs')) _ k]
    rw [foldl_processEvent_created]
    rw [fetchEvents_none, sourceEvents_cons, eligibleKeys_append]
    simp only [List.mem_append]
    tauto

theorem processSources_created_tag (prov : Provider) (existing : List (String × CalEvent))
    (mkId : Nat → String) (tgt : String) (range : Int × Int) (srcs : List String)
    (hf : ∀ s ∈ srcs, prov.fetchOk s = true) :
    ∀ acc b, b ∈ (processSources prov existing mkId tgt range acc srcs).1.created →
      b ∈ acc.created ∨ isSyncedTag b = true := by
  induction srcs with
  | nil => exact fun acc b h => Or.inl h
  | cons s rest ih =>
    intro acc b h
    simp only [processSources] at h
    rw [if_pos (hf s (List.mem_cons_self _ _))] at h
    rcases ih (fun s' hs' => hf s' (List.mem_cons_of_mem _ hs')) _ b h with h' | h'
    · rcases foldl_processEvent_created_tag existing mkId tgt (fetchEvents prov s none)
        { acc with calls := acc.calls ++ [Call.fetch s range.1 range.2] } b h' with h'' | h''
      · exact Or.inl h''
      · exact Or.inr h''
    · exact Or.inr h'

/-! Lemmas about the delete loop of `performSync`. -/

theorem deletePhase_of_deleteOk (prov : Provider) (tgt : String) (keep : List String)
    (hd : ∀ i, prov.deleteOk i = true) :
    ∀ m, deletePhase prov tgt keep m =
      ((m.filter fun p => ! keep.contains p.1).map (fun p => Call.delete tgt p.2.id),
       (m.filter fun p => ! keep.contains p.1).map (fun p => p.2.id),
       .ok ()) := by
  intro m
  induction m with
  | nil => simp [deletePhase]
  | cons p m ih =>
    obtain ⟨k, ev⟩ := p
    by_cases hk : keep.contains k = true
    · simp only [deletePhase, if_pos hk, List.filter_cons, hk, Bool.not_true]
      exact ih
    · have hk' : keep.contains k = false := Bool.eq_false_iff.mpr hk
      simp only [deletePhase, if_neg hk, hd ev.id, if_pos, List.filter_cons, hk',
        Bool.not_false, if_true]
      rw [ih]
      simp

theorem deletePhase_calls_sub (prov : Provider) (tgt : String) (keep : List String) :
    ∀ m c i, Call.delete c i ∈ (deletePhase prov tgt keep m).1 →
      c = tgt ∧ ∃ p ∈ m, p.2.id = i ∧ keep.contains p.1 = false := by
  intro m
  induction m with
  | nil => simp [deletePhase]
  | cons p m ih =>
    obtain ⟨k, ev⟩ := p
    intro c i h
    by_cases hk : keep.contains k = true
    · rw [deletePhase, if_pos hk] at h
      rcases ih c i h with ⟨hc, q, hq, hqi⟩
      exact ⟨hc, q, List.mem_cons_of_mem _ hq, hqi⟩
    · have hk' : keep.contains k = false := Bool.eq_false_iff.mpr hk
      rw [deletePhase, if_neg hk] at h
      by_cases hd : prov.deleteOk ev.id = true
      · rw [if_pos hd] at h
        rcases List.mem_cons.mp h with h' | h'
        · cases h'
          exact ⟨rfl, (k, ev), List.mem_cons_self _ _, rfl, hk'⟩
        · rcases ih c i h' with ⟨hc, q, hq, hqi⟩
          exact ⟨hc, q, List.mem_cons_of_mem _ hq, hqi⟩
      · rw [if_neg hd] at h
        rcases List.mem_singleton.mp h with h'
        cases h'
        exact ⟨rfl, (k, ev), List.mem_cons_self _ _, rfl, hk'⟩

theorem deletePhase_calls_delete (prov : Provider) (tgt : String) (keep : List String) :
    ∀ m c, c ∈ (deletePhase prov tgt keep m).1 → isDeleteCall c = true := by
  intro m
  induction m with
  | nil => simp [deletePhase]
  | cons p m ih =>
    obtain ⟨k, ev⟩ := p
    intro c h
    by_cases hk : keep.contains k = true
    · rw [deletePhase, if_pos hk] at h
      exact ih c h
    · rw [deletePhase, if_neg hk] at h
      by_cases hd : prov.deleteOk ev.id = true
      · rw [if_pos hd] at h
        rcases List.mem_cons.mp h with h' | h'
        · rw [h']; rfl
        · exact ih c h'
      · rw [if_neg hd] at h
        rw [List.mem_singleton.mp h]; rfl

theorem deletePhase_error (prov : Provider) (tgt : String) (keep : List String) :
    ∀ m, (∃ p ∈ m, keep.contains p.1 = false ∧ prov.deleteOk p.2.id = false) →
      (deletePhase prov tgt keep m).2.2 = .error DELETE_FAILED := by
  intro m
  induction m with
  | nil => rintro ⟨p, hp, _⟩; exact absurd hp (List.not_mem_nil p)
  | cons q m ih =>
    obtain ⟨k, ev⟩ := q
    rintro ⟨p, hp, hpc, hpd⟩
    by_cases hk : keep.contains k = true
    · rw [deletePhase, if_pos hk]
      refine ih ⟨p, ?_, hpc, hpd⟩
      rcases List.mem_cons.mp hp with h' | h'
      · rw [h'] at hpc
        rw [hk] at hpc
        exact Bool.noConfusion hpc
      · exact h'
    · rw [deletePhase, if_neg hk]
      by_cases hd : prov.deleteOk ev.id = true
      · rw [if_pos hd]
        show (deletePhase prov tgt keep m).2.2 = _
        refine ih ⟨p, ?_, hpc, hpd⟩
        rcases List.mem_cons.mp hp with h' | h'
        · rw [h'] at hpd
          rw [hd] at hpd
          exact Bool.noConfusion hpd
        · exact h'
      · rw [if_neg hd]

theorem deletePhase_of_keep (prov : Provider) (tgt : String) (keep : List String) :
    ∀ m, (∀ p ∈ m, keep.contains p.1 = true) →
      deletePhase prov tgt keep m = ([], [], .ok ()) := by
  intro m
  induction m with
  | nil => intro _; rfl
  | cons p m ih =>
    obtain ⟨k, ev⟩ := p
    intro h
    rw [deletePhase, if_pos (h (k, ev) (List.mem_cons_self _ _))]
    exact ih fun q hq => h q (List.mem_cons_of_mem _ hq)

theorem deletePhase_ids_sub (prov : Provider) (tgt : String) (keep : List String) :
    ∀ m i, i ∈ (deletePhase prov tgt keep m).2.1 → ∃ p ∈ m, p.2.id = i := by
  intro m
  induction m with
  | nil => simp [deletePhase]
  | cons p m ih =>
    obtain ⟨k, ev⟩ := p
    intro i h
    by_cases hk : keep.contains k = true
    · rw [deletePhase, if_pos hk] at h
      rcases ih i h with ⟨q, hq, hqi⟩
      exact ⟨q, List.mem_cons_of_mem _ hq, hqi⟩
    · rw [deletePhase, if_neg hk] at h
      by_cases hd : prov.deleteOk ev.id = true
      · rw [if_pos hd] at h
        rcases List.mem_cons.mp h with h' | h'
        · exact ⟨(k, ev), List.mem_cons_self _ _, h'.symm⟩
        · rcases ih i h' with ⟨q, hq, hqi⟩
          exact ⟨q, List.mem_cons_of_mem _ hq, hqi⟩
      · rw [if_neg hd] at h
        exact absurd h (List.not_mem_nil i)

/-! Lemmas about `cleanupSyncedEvents` and `cleanupAll`. -/

theorem cleanupFetchPages_succ (prov : Provider) (c : String) (a b : Int) (fuel : Nat)
    (tok : Option String) (ev : List CalEvent) (cs : List Call) :
    cleanupFetchPages prov c a b (fuel + 1) tok ev cs =
      (ev ++ fetchEvents prov c tok, cs ++ [Call.fetch c a b]) := rfl

theorem cleanupDeleteLoop_of_deleteOk (prov : Provider) (c : String)
    (hd : ∀ i, prov.deleteOk i = true) :
    ∀ l, cleanupDeleteLoop prov c l =
      (l.map fun e => Call.delete c e.id, l.map fun e => e.id, .ok ()) := by
  intro l
  induction l with
  | nil => rfl
  | cons ev l ih =>
    rw [cleanupDeleteLoop, if_pos (hd ev.id), ih]
    simp

theorem cleanupDeleteLoop_calls_sub (prov : Provider) (cal : String) :
    ∀ l c i, Call.delete c i ∈ (cleanupDeleteLoop prov cal l).1 →
      c = cal ∧ ∃ ev ∈ l, ev.id = i := by
  intro l
  induction l with
  | nil => simp [cleanupDeleteLoop]
  | cons ev l ih =>
    intro c i h
    by_cases hd : prov.deleteOk ev.id = true
    · rw [cleanupDeleteLoop, if_pos hd] at h
      rcases List.mem_cons.mp h with h' | h'
      · cases h'
        exact ⟨rfl, ev, List.mem_cons_self _ _, rfl⟩
      · rcases ih c i h' with ⟨hc, q, hq, hqi⟩
        exact ⟨hc, q, List.mem_cons_of_mem _ hq, hqi⟩
    · rw [cleanupDeleteLoop, if_neg hd] at h
      rcases List.mem_singleton.mp h with h'
      cases h'
      exact ⟨rfl, ev, List.mem_cons_self _ _, rfl⟩

theorem cleanupDeleteLoop_ids_sub (prov : Provider) (cal : String) :
    ∀ l i, i ∈ (cleanupDeleteLoop prov cal l).2.1 → ∃ ev ∈ l, ev.id = i := by
  intro l
  induction l with
  | nil => simp [cleanupDeleteLoop]
  | cons ev l ih =>
    intro i h
    by_cases hd : prov.deleteOk ev.id = true
    · rw [cleanupDeleteLoop, if_pos hd] at h
      rcases List.mem_cons.mp h with h' | h'
      · exact ⟨ev, List.mem_cons_self _ _, h'.symm⟩
      · rcases ih i h' with ⟨q, hq, hqi⟩
        exact ⟨q, List.mem_cons_of_mem _ hq, hqi⟩
    · rw [cleanupDeleteLoop, if_neg hd] at h
      exact absurd h (List.not_mem_nil i)

theorem cleanupSyncedEvents_of_ok (prov : Provider) (cal : String) (a b : Int)
    (hf : prov.fetchOk cal = true) (hd : ∀ i, prov.deleteOk i = true) :
    cleanupSyncedEvents prov cal a b =
      (Call.fetch cal a b ::
        (((prov.events cal).filter fun e => isSyncedTag e).map fun e => Call.delete cal e.id),
       ((prov.events cal).filter fun e => isSyncedTag e).map fun e => e.id,
       .ok ((prov.events cal).filter fun e => isSyncedTag e).length) := by
  unfold cleanupSyncedEvents
  rw [if_pos hf]
  rw [show (1000 : Nat) = 999 + 1 from rfl, cleanupFetchPages_succ]
  simp only [cleanupDeleteLoop_of_deleteOk prov cal hd, List.nil_append, fetchEvents_none,
    List.singleton_append]

theorem cleanupDeleteLoop_calls_delete (prov : Provider) (cal : String) :
    ∀ l c, c ∈ (cleanupDeleteLoop prov cal l).1 → isDeleteCall c = true := by
  intro l
  induction l with
  | nil => simp [cleanupDeleteLoop]
  | cons ev l ih =>
    intro c h
    by_cases hd : prov.deleteOk ev.id = true
    · rw [cleanupDeleteLoop, if_pos hd] at h
      rcases List.mem_cons.mp h with h' | h'
      · rw [h']; rfl
      · exact ih c h'
    · rw [cleanupDeleteLoop, if_neg hd] at h
      rw [List.mem_singleton.mp h]; rfl

theorem cleanupSyncedEvents_calls_fetch_or_delete (prov : Provider) (cal : String)
    (a b : Int) :
    ∀ c, c ∈ (cleanupSyncedEvents prov cal a b).1 →
      c = Call.fetch cal a b ∨
        ∃ i, c = Call.delete cal i ∧
          ∃ ev ∈ (prov.events cal).filter (fun e => isSyncedTag e), ev.id = i := by
  intro c hc
  unfold cleanupSyncedEvents at hc
  by_cases hf : prov.fetchOk cal = true
  · rw [if_pos hf] at hc
    rw [show (1000 : Nat) = 999 + 1 from rfl, cleanupFetchPages_succ] at hc
    simp only [List.nil_append] at hc
    rcases List.mem_append.mp hc with h' | h'
    · exact Or.inl (List.mem_singleton.mp h')
    · cases c with
      | fetch c' a' b' =>
        exact absurd (cleanupDeleteLoop_calls_delete prov cal _ _ h') (by simp [isDeleteCall])
      | create c' body =>
        exact absurd (cleanupDeleteLoop_calls_delete prov cal _ _ h') (by simp [isDeleteCall])
      | delete c' i =>
        rcases cleanupDeleteLoop_calls_sub prov cal _ c' i h' with ⟨hc', ev, hev, hevi⟩
        subst hc'
        rw [fetchEvents_none] at hev
        exact Or.inr ⟨i, rfl, ev, hev, hevi⟩
  · rw [if_neg hf] at hc
    exact Or.inl (List.mem_singleton.mp hc)

/-! The two latch branches and the main-path unfolding of `performSync`. -/

theorem performSync_latched (st : SyncState) (settings : Option Settings) (prov : Provider)
    (mkId : Nat → String) (now : Int) (h : st.syncInProgress = true) :
    performSync st settings prov mkId now =
      { state := st, calls := [], outcome := .ok (), world := prov.events } := by
  unfold performSync
  rw [if_pos h]

theorem performSync_run (st : SyncState) (settings : Option Settings) (prov : Provider)
    (mkId : Nat → String) (now : Int) (tgt : String) (srcs : List String) (w : Int)
    (h0 : st.syncInProgress = false)
    (hset : checkSettings settings = .ok (tgt, srcs, w))
    (hft : prov.fetchOk tgt = true) :
    performSync st settings prov mkId now =
      (let range := syncDateRange now w
       let existing := existingMap prov tgt
       let res := processSources prov existing mkId tgt range (initAcc tgt range) srcs
       match res.2 with
       | .error e =>
         { state := { st with syncInProgress := false }, calls := res.1.calls
           outcome := .error e, world := applyTarget prov.events tgt [] res.1.created }
       | .ok () =>
         let del := deletePhase prov tgt res.1.keep existing
         let world := applyTarget prov.events tgt del.2.1 res.1.created
         match del.2.2 with
         | .error e =>
           { state := { st with syncInProgress := false }
             calls := res.1.calls ++ del.1, outcome := .error e, world := world }
         | .ok () =>
           { state := { syncInProgress := false, lastSyncTime := some now }
             calls := res.1.calls ++ del.1, outcome := .ok (), world := world }) := by
  unfold performSync
  rw [if_neg (by rw [h0]; exact Bool.false_ne_true), hset]
  dsimp only
  rw [if_pos hft]

theorem performSync_ok_parts (st : SyncState) (settings : Option Settings) (prov : Provider)
    (mkId : Nat → String) (now : Int) (tgt : String) (srcs : List String) (w : Int)
    (h0 : st.syncInProgress = false)
    (hset : checkSettings settings = .ok (tgt, srcs, w))
    (hf : ∀ c, prov.fetchOk c = true)
    (hd : ∀ i, prov.deleteOk i = true) :
    (performSync st settings prov mkId now).outcome = .ok () ∧
    (performSync st settings prov mkId now).state = ⟨false, some now⟩ ∧
    (performSync st settings prov mkId now).calls =
      (processSources prov (existingMap prov tgt) mkId tgt (syncDateRange now w)
        (initAcc tgt (syncDateRange now w)) srcs).1.calls ++
      (deletePhase prov tgt
        (processSources prov (existingMap prov tgt) mkId tgt (syncDateRange now w)
          (initAcc tgt (syncDateRange now w)) srcs).1.keep (existingMap prov tgt)).1 ∧
    (performSync st settings prov mkId now).world =
      applyTarget prov.events tgt
        (deletePhase prov tgt
          (processSources prov (existingMap prov tgt) mkId tgt (syncDateRange now w)
            (initAcc tgt (syncDateRange now w)) srcs).1.keep (existingMap prov tgt)).2.1
        (processSources prov (existingMap prov tgt) mkId tgt (syncDateRange now w)
          (initAcc tgt (syncDateRange now w)) srcs).1.created := by
  rw [performSync_run st settings prov mkId now tgt srcs w h0 hset (hf tgt)]
  have hok := processSources_ok prov (existingMap prov tgt) mkId tgt (syncDateRange now w)
    srcs (fun s _ => hf s) (initAcc tgt (syncDateRange now w))
  have hdel := deletePhase_of_deleteOk prov tgt
    (processSources prov (existingMap prov tgt) mkId tgt (syncDateRange now w)
      (initAcc tgt (syncDateRange now w)) srcs).1.keep hd (existingMap prov tgt)
  refine ⟨?_, ?_, ?_, ?_⟩ <;> simp only [hok, hdel]

theorem existingMap_eq_pairs (prov : Provider) (tgt : String)
    (hkeys : (((prov.events tgt).filter fun e => isSyncedTag e).map createEventKey).Nodup) :
    existingMap prov tgt =
      ((prov.events tgt).filter fun e => isSyncedTag e).map fun e => (createEventKey e, e) := by
  rw [existingMap, fetchEvents_none]
  apply mapOfEntries_eq_self
  rw [List.map_map]
  exact hkeys

theorem mapHas_existingMap (prov : Provider) (tgt : String) (k : String) :
    mapHas (existingMap prov tgt) k = true ↔
      k ∈ ((prov.events tgt).filter fun e => isSyncedTag e).map createEventKey := by
  rw [existingMap, mapHas_mapOfEntries, fetchEvents_none]
  constructor
  · rintro ⟨p, hp, hpk⟩
    rcases List.mem_map.mp hp with ⟨e, he, rfl⟩
    exact List.mem_map.mpr ⟨e, he, hpk⟩
  · rintro h
    rcases List.mem_map.mp h with ⟨e, he, rfl⟩
    exact ⟨(createEventKey e, e), List.mem_map.mpr ⟨e, he, rfl⟩, rfl⟩

/-- Central property of a fully-successful run: afterwards the slot keys of
the tagged events in the target calendar are exactly the distinct slot keys
of the eligible source events — provided the tagged events the run started
from had pairwise-distinct keys and the target's event ids are unique. -/
theorem sync_converges (st : SyncState) (settings : Option Settings) (prov : Provider)
    (mkId : Nat → String) (now : Int) (tgt : String) (srcs : List String) (w : Int)
    (h0 : st.syncInProgress = false)
    (hset : checkSettings settings = .ok (tgt, srcs, w))
    (hf : ∀ c, prov.fetchOk c = true)
    (hd : ∀ i, prov.deleteOk i = true)
    (hkeys : (((prov.events tgt).filter fun e => isSyncedTag e).map createEventKey).Nodup)
    (hids : ((prov.events tgt).map CalEvent.id).Nodup) :
    (performSync st settings prov mkId now).outcome = .ok () ∧
    ∀ k, (k ∈ (((performSync st settings prov mkId now).world tgt).filter
        (fun e => isSyncedTag e)).map createEventKey ↔
      k ∈ eligibleKeys (sourceEvents prov srcs)) := by
  obtain ⟨hout, -, -, hworld⟩ :=
    performSync_ok_parts st settings prov mkId now tgt srcs w h0 hset hf hd
  refine ⟨hout, ?_⟩
  intro k
  rw [hworld]
  set range := syncDateRange now w with hrange
  set existing := existingMap prov tgt with hex
  set res := processSources prov existing mkId tgt range (initAcc tgt range) srcs with hres
  set del := deletePhase prov tgt res.1.keep existing with hdel0
  have hkeep := processSources_keep prov existing mkId tgt range srcs
    (fun s _ => hf s) (initAcc tgt range)
  have hcreated := processSources_created prov existing mkId tgt range srcs
    (fun s _ => hf s) (initAcc tgt range)
  have hctag := processSources_created_tag prov existing mkId tgt range srcs
    (fun s _ => hf s) (initAcc tgt range)
  have hpairs : existing =
      ((prov.events tgt).filter fun e => isSyncedTag e).map fun e => (createEventKey e, e) := by
    rw [hex]
    exact existingMap_eq_pairs prov tgt hkeys
  have hdelspec := deletePhase_of_deleteOk prov tgt res.1.keep hd existing
  have hdids : del.2.1 =
      (((prov.events tgt).filter fun e => isSyncedTag e).filter
        (fun e => ! res.1.keep.contains (createEventKey e))).map CalEvent.id := by
    rw [hdel0, hdelspec, hpairs]
    simp only [List.filter_map, List.map_map]
    rfl
  have hidmem : ∀ e ∈ prov.events tgt, isSyncedTag e = true →
      (e.id ∈ del.2.1 ↔ res.1.keep.contains (createEventKey e) = false) := by
    intro e he htag
    rw [hdids]
    constructor
    · intro h
      rcases List.mem_map.mp h with ⟨e', he', heid⟩
      rcases List.mem_filter.mp he' with ⟨he'tag, hpred⟩
      have he'mem : e' ∈ prov.events tgt := (List.mem_filter.mp he'tag).1
      have he'e : e' = e := List.inj_on_of_nodup_map hids he'mem he heid
      rw [he'e] at hpred
      simpa using hpred
    · intro h
      refine List.mem_map.mpr ⟨e, List.mem_filter.mpr
        ⟨List.mem_filter.mpr ⟨he, htag⟩, ?_⟩, rfl⟩
      rw [h]
      rfl
  simp only [applyTarget, if_pos]
  rw [List.filter_append, List.map_append, List.mem_append]
  have hcf : (res.1.created.filter fun e => isSyncedTag e) = res.1.created := by
    apply List.filter_eq_self.mpr
    intro b hb
    rcases hctag b hb with h' | h'
    · exact absurd h' (List.not_mem_nil b)
    · exact h'
  rw [hcf]
  constructor
  · rintro (h | h)
    · rcases List.mem_map.mp h with ⟨e, hef, rfl⟩
      rcases List.mem_filter.mp hef with ⟨heP, htag⟩
      rcases List.mem_filter.mp heP with ⟨hee, hPd⟩
      have hnotdel : e.id ∉ del.2.1 := by
        have hp := of_decide_eq_true hPd
        intro hmem
        exact hp (contains_iff.mpr hmem)
      have hkc : res.1.keep.contains (createEventKey e) = true := by
        by_cases hb : res.1.keep.contains (createEventKey e) = true
        · exact hb
        · exact absurd ((hidmem e hee htag).mpr (Bool.eq_false_iff.mpr hb)) hnotdel
      rcases (hkeep (createEventKey e)).mp (contains_iff.mp hkc) with h' | h'
      · exact absurd h' (List.not_mem_nil _)
      · exact h'
    · rcases (hcreated k).mp h with h' | h'
      · rcases List.mem_map.mp h' with ⟨a, ha, -⟩
        exact absurd ha (List.not_mem_nil a)
      · exact h'.1
  · intro hE
    by_cases hT : k ∈ ((prov.events tgt).filter fun e => isSyncedTag e).map createEventKey
    · left
      rcases List.mem_map.mp hT with ⟨e, hetag, rfl⟩
      rcases List.mem_filter.mp hetag with ⟨hee, htag⟩
      refine List.mem_map.mpr ⟨e, List.mem_filter.mpr
        ⟨List.mem_filter.mpr ⟨hee, ?_⟩, htag⟩, rfl⟩
      have hkc : res.1.keep.contains (createEventKey e) = true :=
        contains_iff.mpr ((hkeep _).mpr (Or.inr hE))
      have hnd : e.id ∉ del.2.1 := by
        intro hmem
        rw [(hidmem e hee htag).mp hmem] at hkc
        exact Bool.noConfusion hkc
      exact decide_eq_true (fun hcon => hnd (contains_iff.mp hcon))
    · right
      refine (hcreated k).mpr (Or.inr ⟨hE, ?_⟩)
      rw [Bool.eq_false_iff]
      intro hhas
      rw [hex] at hhas
      exact hT ((mapHas_existingMap prov tgt k).mp hhas)

/-! Branch analysis of `performSync` for the state-machine and ownership
claims. -/

theorem performSync_state_outcome (st : SyncState) (settings : Option Settings)
    (prov : Provider) (mkId : Nat → String) (now : Int)
    (h0 : st.syncInProgress = false) :
    ((performSync st settings prov mkId now).state = { st with syncInProgress := false } ∧
      ∃ e, (performSync st settings prov mkId now).outcome = .error e) ∨
    ((performSync st settings prov mkId now).state =
        { syncInProgress := false, lastSyncTime := some now } ∧
      (performSync st settings prov mkId now).outcome = .ok ()) := by
  cases hcs : checkSettings settings with
  | error e =>
    unfold performSync
    rw [if_neg (by rw [h0]; exact Bool.false_ne_true), hcs]
    exact Or.inl ⟨rfl, e, rfl⟩
  | ok t =>
    obtain ⟨tgt, srcs, w⟩ := t
    by_cases hft : prov.fetchOk tgt = true
    · rw [performSync_run st settings prov mkId now tgt srcs w h0 hcs hft]
      cases hres2 : (processSources prov (existingMap prov tgt) mkId tgt
          (syncDateRange now w) (initAcc tgt (syncDateRange now w)) srcs).2 with
      | error e =>
        simp only [hres2]
        exact Or.inl ⟨trivial, e, rfl⟩
      | ok u =>
        cases u
        cases hdel2 : (deletePhase prov tgt
            (processSources prov (existingMap prov tgt) mkId tgt (syncDateRange now w)
              (initAcc tgt (syncDateRange now w)) srcs).1.keep (existingMap prov tgt)).2.2 with
        | error e =>
          simp only [hres2, hdel2]
          exact Or.inl ⟨trivial, e, rfl⟩
        | ok u2 =>
          cases u2
          simp only [hres2, hdel2]
          exact Or.inr ⟨trivial, trivial⟩
    · unfold performSync
      rw [if_neg (by rw [h0]; exact Bool.false_ne_true), hcs]
      dsimp only
      rw [if_neg hft]
      exact Or.inl ⟨rfl, FETCH_FAILED, rfl⟩

theorem existingMap_mem (prov : Provider) (tgt : String) {p : String × CalEvent}
    (h : p ∈ existingMap prov tgt) :
    ∃ e ∈ prov.events tgt, isSyncedTag e = true ∧ p = (createEventKey e, e) := by
  have h' := mem_mapOfEntries h
  rcases List.mem_map.mp h' with ⟨e, he, rfl⟩
  rcases List.mem_filter.mp he with ⟨hee, htag⟩
  rw [fetchEvents_none] at hee
  exact ⟨e, hee, htag, rfl⟩

theorem performSync_call_origin (st : SyncState) (settings : Option Settings)
    (prov : Provider) (mkId : Nat → String) (now : Int) (tgt : String)
    (srcs : List String) (w : Int)
    (hset : checkSettings settings = .ok (tgt, srcs, w)) :
    ∀ c ∈ (performSync st settings prov mkId now).calls,
      (∃ s, c = Call.fetch s (now - 7 * dayMs) (now + w * 7 * dayMs)) ∨
      (∃ body, c = Call.create tgt body) ∨
      (∃ i, c = Call.delete tgt i ∧
        ∃ ev ∈ prov.events tgt, isSyncedTag ev = true ∧ ev.id = i) := by
  intro c hc
  by_cases h0 : st.syncInProgress = true
  · rw [performSync_latched st settings prov mkId now h0] at hc
    exact absurd hc (List.not_mem_nil c)
  · have h0' : st.syncInProgress = false := Bool.eq_false_iff.mpr h0
    have hdelorigin : ∀ keep i,
        Call.delete tgt i ∈ (deletePhase prov tgt keep (existingMap prov tgt)).1 →
        ∃ ev ∈ prov.events tgt, isSyncedTag ev = true ∧ ev.id = i := by
      intro keep i hdc
      rcases deletePhase_calls_sub prov tgt keep (existingMap prov tgt) tgt i hdc with
        ⟨-, p, hp, hpi, -⟩
      rcases existingMap_mem prov tgt hp with ⟨e, he, htag, rfl⟩
      exact ⟨e, he, htag, hpi⟩
    have hdeletecalls : ∀ keep c',
        c' ∈ (deletePhase prov tgt keep (existingMap prov tgt)).1 →
        ∃ i, c' = Call.delete tgt i ∧
          ∃ ev ∈ prov.events tgt, isSyncedTag ev = true ∧ ev.id = i := by
      intro keep c' hdc
      have hd := deletePhase_calls_delete prov tgt keep (existingMap prov tgt) c' hdc
      cases c' with
      | fetch c'' a' b' => exact absurd hd (by simp [isDeleteCall])
      | create c'' body => exact absurd hd (by simp [isDeleteCall])
      | delete c'' i =>
        obtain ⟨hceq, p, hp, hpi, -⟩ :=
          deletePhase_calls_sub prov tgt keep (existingMap prov tgt) c'' i hdc
        rcases existingMap_mem prov tgt hp with ⟨e, he, htag, hpe⟩
        refine ⟨i, by rw [hceq], e, he, htag, ?_⟩
        rw [hpe] at hpi
        exact hpi
    have hsrccalls : c ∈ (processSources prov (existingMap prov tgt) mkId tgt
        (syncDateRange now w) (initAcc tgt (syncDateRange now w)) srcs).1.calls →
        (∃ s, c = Call.fetch s (now - 7 * dayMs) (now + w * 7 * dayMs)) ∨
          (∃ body, c = Call.create tgt body) := by
      intro hmem
      rcases processSources_calls_shape prov (existingMap prov tgt) mkId tgt
        (syncDateRange now w) srcs (initAcc tgt (syncDateRange now w)) with ⟨nc, hnc, hall⟩
      rw [hnc] at hmem
      rcases List.mem_append.mp hmem with h' | h'
      · exact Or.inl ⟨tgt, List.mem_singleton.mp h'⟩
      · rcases hall c h' with ⟨body, rfl⟩ | ⟨s, rfl⟩
        · exact Or.inr ⟨body, rfl⟩
        · exact Or.inl ⟨s, rfl⟩
    by_cases hft : prov.fetchOk tgt = true
    · rw [performSync_run st settings prov mkId now tgt srcs w h0' hset hft] at hc
      cases hres2 : (processSources prov (existingMap prov tgt) mkId tgt
          (syncDateRange now w) (initAcc tgt (syncDateRange now w)) srcs).2 with
      | error e =>
        simp only [hres2] at hc
        rcases hsrccalls hc with h' | h'
        · exact Or.inl h'
        · exact Or.inr (Or.inl h')
      | ok u =>
        cases u
        simp only [hres2] at hc
        cases hdel2 : (deletePhase prov tgt
            (processSources prov (existingMap prov tgt) mkId tgt (syncDateRange now w)
              (initAcc tgt (syncDateRange now w)) srcs).1.keep (existingMap prov tgt)).2.2 with
        | error e =>
          simp only [hdel2] at hc
          rcases List.mem_append.mp hc with h' | h'
          · rcases hsrccalls h' with h'' | h''
            · exact Or.inl h''
            · exact Or.inr (Or.inl h'')
          · rcases hdeletecalls _ c h' with ⟨i, rfl, hrest⟩
            exact Or.inr (Or.inr ⟨i, rfl, hrest⟩)
        | ok u2 =>
          cases u2
          simp only [hdel2] at hc
          rcases List.mem_append.mp hc with h' | h'
          · rcases hsrccalls h' with h'' | h''
            · exact Or.inl h''
            · exact Or.inr (Or.inl h'')
          · rcases hdeletecalls _ c h' with ⟨i, rfl, hrest⟩
            exact Or.inr (Or.inr ⟨i, rfl, hrest⟩)
    · unfold performSync at hc
      rw [if_neg (by rw [h0']; exact Bool.false_ne_true), hset] at hc
      dsimp only at hc
      rw [if_neg hft] at hc
      exact Or.inl ⟨tgt, List.mem_singleton.mp hc⟩

theorem performSync_world_cases (st : SyncState) (settings : Option Settings)
    (prov : Provider) (mkId : Nat → String) (now : Int) (tgt : String)
    (srcs : List String) (w : Int)
    (hset : checkSettings settings = .ok (tgt, srcs, w)) :
    (∀ c, (performSync st settings prov mkId now).world c = prov.events c) ∨
    (∃ dIds created,
      (performSync st settings prov mkId now).world = applyTarget prov.events tgt dIds created ∧
      ∀ i ∈ dIds, ∃ ev ∈ prov.events tgt, isSyncedTag ev = true ∧ ev.id = i) := by
  by_cases h0 : st.syncInProgress = true
  · rw [performSync_latched st settings prov mkId now h0]
    exact Or.inl fun c => rfl
  · have h0' : st.syncInProgress = false := Bool.eq_false_iff.mpr h0
    have hdids : ∀ keep i, i ∈ (deletePhase prov tgt keep (existingMap prov tgt)).2.1 →
        ∃ ev ∈ prov.events tgt, isSyncedTag ev = true ∧ ev.id = i := by
      intro keep i hi
      rcases deletePhase_ids_sub prov tgt keep (existingMap prov tgt) i hi with ⟨p, hp, hpi⟩
      rcases existingMap_mem prov tgt hp with ⟨e, he, htag, hpe⟩
      refine ⟨e, he, htag, ?_⟩
      rw [hpe] at hpi
      exact hpi
    by_cases hft : prov.fetchOk tgt = true
    · rw [performSync_run st settings prov mkId now tgt srcs w h0' hset hft]
      cases hres2 : (processSources prov (existingMap prov tgt) mkId tgt
          (syncDateRange now w) (initAcc tgt (syncDateRange now w)) srcs).2 with
      | error e =>
        refine Or.inr ⟨[], (processSources prov (existingMap prov tgt) mkId tgt
          (syncDateRange now w) (initAcc tgt (syncDateRange now w)) srcs).1.created, ?_, by simp⟩
        simp only [hres2]
      | ok u =>
        cases u
        cases hdel2 : (deletePhase prov tgt
            (processSources prov (existingMap prov tgt) mkId tgt (syncDateRange now w)
              (initAcc tgt (syncDateRange now w)) srcs).1.keep (existingMap prov tgt)).2.2 with
        | error e =>
          refine Or.inr ⟨(deletePhase prov tgt
              (processSources prov (existingMap prov tgt) mkId tgt (syncDateRange now w)
                (initAcc tgt (syncDateRange now w)) srcs).1.keep (existingMap prov tgt)).2.1,
            (processSources prov (existingMap prov tgt) mkId tgt
              (syncDateRange now w) (initAcc tgt (syncDateRange now w)) srcs).1.created,
            ?_, hdids _⟩
          simp only [hres2, hdel2]
        | ok u2 =>
          cases u2
          refine Or.inr ⟨(deletePhase prov tgt
              (processSources prov (existingMap prov tgt) mkId tgt (syncDateRange now w)
                (initAcc tgt (syncDateRange now w)) srcs).1.keep (existingMap prov tgt)).2.1,
            (processSources prov (existingMap prov tgt) mkId tgt
              (syncDateRange now w) (initAcc tgt (syncDateRange now w)) srcs).1.created,
            ?_, hdids _⟩
          simp only [hres2, hdel2]
    · unfold performSync
      rw [if_neg (by rw [h0']; exact Bool.false_ne_true), hset]
      dsimp only
      rw [if_neg hft]
      exact Or.inl fun c => rfl

theorem withTargetPage_events_self (prov : Provider) (tgt : String) (items : List CalEvent) :
    (prov.withTargetPage tgt items).events tgt = items := by
  simp [Provider.withTargetPage, Provider.events]

theorem withTargetPage_events_ne (prov : Provider) (tgt c : String) (items : List CalEvent)
    (h : c ≠ tgt) : (prov.withTargetPage tgt items).events c = prov.events c := by
  simp [Provider.withTargetPage, Provider.events, h]

theorem sourceEvents_congr (prov prov' : Provider) (srcs : List String)
    (h : ∀ s ∈ srcs, prov'.events s = prov.events s) :
    sourceEvents prov' srcs = sourceEvents prov srcs := by
  induction srcs with
  | nil => rfl
  | cons s rest ih =>
    rw [sourceEvents_cons, sourceEvents_cons, h s (List.mem_cons_self _ _),
      ih (fun s' hs' => h s' (List.mem_cons_of_mem _ hs'))]

theorem sourceEvents_nil (prov : Provider) (srcs : List String)
    (h : ∀ s ∈ srcs, prov.events s = []) : sourceEvents prov srcs = [] := by
  induction srcs with
  | nil => rfl
  | cons s rest ih =>
    rw [sourceEvents_cons, h s (List.mem_cons_self _ _), List.nil_append]
    exact ih (fun s' hs' => h s' (List.mem_cons_of_mem _ hs'))

/-! Claim theorems. -/

/-- C1 counterexample: two source calendars each containing an eligible event
with identical (startTime, endTime) and an empty target calendar: the run
completes but issues two create calls and leaves two tagged SyncedEvents in
the target — not exactly one, because the slot key created while processing
the first source calendar is never added to `existingSyncedMap`. -/
theorem C1_counterexample :
    (performSync st0 (some settingsDup) provDup mkId0 0).outcome = .ok () ∧
    (performSync st0 (some settingsDup) provDup mkId0 0).calls.countP isCreateCall = 2 ∧
    (((performSync st0 (some settingsDup) provDup mkId0 0).world "tgt").filter
      (fun e => isSyncedTag e)).length = 2 :=
  ⟨rfl, rfl, rfl⟩

/-- C1 (amended): creation is deduplicated only against the tagged events
fetched at the start of the run — a slot key created during the run is not
added to `existing`, so two sources with an identical eligible slot produce
two SyncedEvents (see the counterexample).  What does hold is convergence at
the level of key sets: provided the pre-run tagged events carry
pairwise-distinct slot keys and event ids are unique, after `sync` completes
the slot keys of the tagged events in the target calendar are exactly the
distinct slot keys of the eligible source events. -/
theorem C1_sync_convergence (st : SyncState) (settings : Option Settings) (prov : Provider)
    (mkId : Nat → String) (now : Int) (tgt : String) (srcs : List String) (w : Int)
    (h0 : st.syncInProgress = false)
    (hset : checkSettings settings = .ok (tgt, srcs, w))
    (hf : ∀ c, prov.fetchOk c = true) (hd : ∀ i, prov.deleteOk i = true)
    (hkeys : (((prov.events tgt).filter fun e => isSyncedTag e).map createEventKey).Nodup)
    (hids : ((prov.events tgt).map CalEvent.id).Nodup) :
    (performSync st settings prov mkId now).outcome = .ok () ∧
    ∀ k, (k ∈ (((performSync st settings prov mkId now).world tgt).filter
        (fun e => isSyncedTag e)).map createEventKey ↔
      k ∈ eligibleKeys (sourceEvents prov srcs)) :=
  sync_converges st settings prov mkId now tgt srcs w h0 hset hf hd hkeys hids

/-- C1 witness: the convergence theorem applied to the two-source fixture. -/
theorem C1_sync_convergence_witness :
    (performSync st0 (some settingsDup) provDup mkId0 0).outcome = .ok () ∧
    (createEventKey (mkTimed "w" dtA dtB true) ∈
        (((performSync st0 (some settingsDup) provDup mkId0 0).world "tgt").filter
          (fun e => isSyncedTag e)).map createEventKey ↔
      createEventKey (mkTimed "w" dtA dtB true) ∈
        eligibleKeys (sourceEvents provDup ["src1", "src2"])) := by
  have h := C1_sync_convergence st0 (some settingsDup) provDup mkId0 0 "tgt"
    ["src1", "src2"] 1 rfl rfl (fun c => rfl) (fun i => rfl) (by decide) (by decide)
  exact ⟨h.1, h.2 _⟩

/-- C2: the single-day check compares only `getDate()` — the day-of-month in
the runtime's timezone — so an event spanning 2024-06-01T12:00Z to
2024-07-01T12:00Z, whose bounds lie on different calendar days but share the
day-of-month 1, passes the check and a SyncedEvent is created for it; an
event lacking a concrete end dateTime is excluded as the claim says. -/
theorem C2_day_of_month_check :
    civilDay dtJun1.ms ≠ civilDay dtJul1.ms ∧
    getDate dtJun1.ms = getDate dtJul1.ms ∧
    slotKey? monthEv = some "2024-06-01T12:00:00Z_2024-07-01T12:00:00Z" ∧
    (performSync st0 (some settings1) provMonth mkId0 0).calls.countP isCreateCall = 1 ∧
    (((performSync st0 (some settings1) provMonth mkId0 0).world "tgt").filter
      (fun e => isSyncedTag e)).length = 1 ∧
    slotKey? noTimeEv = none ∧
    (performSync st0 (some settings1) provNoTime mkId0 0).calls.countP isCreateCall = 0 :=
  ⟨by decide, rfl, rfl, rfl, rfl, rfl, rfl⟩

/-- C3: listing does not page.  `fetchEvents` issues a single request and
returns only `data.items`, dropping the `nextPageToken`; the cleanup loop
reads its next token off that items array, so it is always `undefined` and
the loop stops after the first page: with a two-page target, the tagged event
on page 2 is neither counted nor deleted. -/
theorem C3_paging_first_page_only :
    (provPaged.page "tgt" none).nextPageToken = some "tok2" ∧
    fetchEvents provPaged "tgt" none = [pg1Ev] ∧
    (cleanupSyncedEvents provPaged "tgt" 0 100).2.2 = .ok 1 ∧
    (cleanupSyncedEvents provPaged "tgt" 0 100).2.1 = ["p1"] ∧
    isSyncedTag pg2Ev = true ∧
    pg2Ev ∈ (provPaged.page "tgt" (some "tok2")).items :=
  ⟨rfl, rfl, rfl, rfl, rfl, by decide⟩

/-- C4 counterexample: a target containing one stale tagged event whose
DELETE returns a not-found (non-ok) outcome: `deleteEvent` throws instead of
treating it as success, and the sync run aborts with that error. -/
theorem C4_counterexample :
    deleteEvent false = .error DELETE_FAILED ∧
    (performSync st0 (some settings1) provDel404 mkId0 0).outcome =
      .error DELETE_FAILED :=
  ⟨rfl, rfl⟩

/-- C4 (amended): `deleteEvent` treats every non-ok response — a not-found
outcome included — as a failure and throws `DELETE_FAILED`, and a sync run
whose delete phase encounters such an outcome aborts with that error. -/
theorem C4_delete_not_found_aborts (st : SyncState) (settings : Option Settings)
    (prov : Provider) (mkId : Nat → String) (now : Int) (tgt : String)
    (srcs : List String) (w : Int)
    (h0 : st.syncInProgress = false)
    (hset : checkSettings settings = .ok (tgt, srcs, w))
    (hf : ∀ c, prov.fetchOk c = true)
    (hempty : ∀ s ∈ srcs, prov.events s = [])
    (htagged : ((prov.events tgt).filter fun e => isSyncedTag e) ≠ [])
    (hd : ∀ i, prov.deleteOk i = false) :
    (performSync st settings prov mkId now).outcome = .error DELETE_FAILED := by
  rw [performSync_run st settings prov mkId now tgt srcs w h0 hset (hf tgt)]
  have hok := processSources_ok prov (existingMap prov tgt) mkId tgt (syncDateRange now w)
    srcs (fun s _ => hf s) (initAcc tgt (syncDateRange now w))
  have hkeepmem := processSources_keep prov (existingMap prov tgt) mkId tgt
    (syncDateRange now w) srcs (fun s _ => hf s) (initAcc tgt (syncDateRange now w))
  have hkeepnone : ∀ k, k ∉ (processSources prov (existingMap prov tgt) mkId tgt
      (syncDateRange now w) (initAcc tgt (syncDateRange now w)) srcs).1.keep := by
    intro k hk
    rcases (hkeepmem k).mp hk with h' | h'
    · exact absurd h' (List.not_mem_nil k)
    · rw [sourceEvents_nil prov srcs hempty] at h'
      exact absurd h' (by simp [eligibleKeys])
  obtain ⟨e0, he0⟩ : ∃ e0, e0 ∈ (prov.events tgt).filter fun e => isSyncedTag e := by
    cases hl : (prov.events tgt).filter fun e => isSyncedTag e with
    | nil => exact absurd hl htagged
    | cons x xs => exact ⟨x, hl ▸ List.mem_cons_self x xs⟩
  have hhas : mapHas (existingMap prov tgt) (createEventKey e0) = true :=
    (mapHas_existingMap prov tgt _).mpr (List.mem_map.mpr ⟨e0, he0, rfl⟩)
  rcases mapHas_iff.mp hhas with ⟨p, hp, hpk⟩
  have herr := deletePhase_error prov tgt
    (processSources prov (existingMap prov tgt) mkId tgt (syncDateRange now w)
      (initAcc tgt (syncDateRange now w)) srcs).1.keep (existingMap prov tgt)
    ⟨p, hp, Bool.eq_false_iff.mpr (fun hc => hkeepnone _ (contains_iff.mp hc)),
      hd p.2.id⟩
  simp only [hok, herr]

/-- C4 witness: the amended theorem applied to the not-found fixture. -/
theorem C4_delete_not_found_aborts_witness :
    (performSync st0 (some settings1) provDel404 mkId0 7).outcome =
      .error DELETE_FAILED :=
  C4_delete_not_found_aborts st0 (some settings1) provDel404 mkId0 7 "tgt" ["src1"] 1
    rfl rfl (fun c => rfl) (by decide) (by decide) (fun i => rfl)

/-- C5 counterexample: a target holding two tagged events with the same slot
key and no matching source event.  `sync` runs twice with nothing changed
externally (the second run sees exactly the target state the first run left
behind).  The JS Map collapses the duplicated key, so the first run deletes
only one of the two events — and the second run issues one more delete call,
not zero. -/
theorem C5_counterexample :
    (performSync st0 (some settings1) provDupTgt mkId0 0).outcome = .ok () ∧
    (performSync st0 (some settings1) provDupTgt mkId0 0).calls.countP isDeleteCall = 1 ∧
    ((performSync st0 (some settings1)
        (provDupTgt.withTargetPage "tgt"
          ((performSync st0 (some settings1) provDupTgt mkId0 0).world "tgt"))
        mkId0 0).calls.countP isDeleteCall) = 1 :=
  ⟨rfl, rfl, rfl⟩

/-- C5 (amended): the second of two back-to-back runs issues zero creates and
zero deletes, provided the tagged events in the target calendar carried
pairwise-distinct slot keys before the first run (the code itself can break
this precondition by creating duplicates, and the counterexample shows the
claim fails without it), event ids are unique, and the target is not among
the sources. -/
theorem C5_second_run_quiescent (st st' : SyncState) (settings : Option Settings)
    (prov : Provider) (mkId mkId' : Nat → String) (now now' : Int) (tgt : String)
    (srcs : List String) (w : Int)
    (h0 : st.syncInProgress = false) (h0' : st'.syncInProgress = false)
    (hset : checkSettings settings = .ok (tgt, srcs, w))
    (hf : ∀ c, prov.fetchOk c = true) (hd : ∀ i, prov.deleteOk i = true)
    (hkeys : (((prov.events tgt).filter fun e => isSyncedTag e).map createEventKey).Nodup)
    (hids : ((prov.events tgt).map CalEvent.id).Nodup)
    (hts : tgt ∉ srcs) :
    ((performSync st' settings
        (prov.withTargetPage tgt ((performSync st settings prov mkId now).world tgt))
        mkId' now').calls.countP isCreateCall = 0) ∧
    ((performSync st' settings
        (prov.withTargetPage tgt ((performSync st settings prov mkId now).world tgt))
        mkId' now').calls.countP isDeleteCall = 0) := by
  obtain ⟨-, hconv⟩ :=
    sync_converges st settings prov mkId now tgt srcs w h0 hset hf hd hkeys hids
  set prov2 := prov.withTargetPage tgt ((performSync st settings prov mkId now).world tgt)
    with hprov2
  have hf2 : ∀ c, prov2.fetchOk c = true := hf
  have hd2 : ∀ i, prov2.deleteOk i = true := hd
  have hsrcs : sourceEvents prov2 srcs = sourceEvents prov srcs :=
    sourceEvents_congr prov prov2 srcs (fun s hs =>
      withTargetPage_events_ne prov tgt s _ (fun he => hts (he ▸ hs)))
  have htgt2 : prov2.events tgt = (performSync st settings prov mkId now).world tgt :=
    withTargetPage_events_self prov tgt _
  have htagged2 : ∀ k,
      k ∈ ((prov2.events tgt).filter fun e => isSyncedTag e).map createEventKey ↔
        k ∈ eligibleKeys (sourceEvents prov srcs) := by
    intro k
    rw [htgt2]
    exact hconv k
  obtain ⟨-, -, hcalls2, -⟩ :=
    performSync_ok_parts st' settings prov2 mkId' now' tgt srcs w h0' hset hf2 hd2
  have hhas2 : ∀ k ∈ eligibleKeys (sourceEvents prov2 srcs),
      mapHas (existingMap prov2 tgt) k = true := by
    intro k hk
    rw [hsrcs] at hk
    exact (mapHas_existingMap prov2 tgt k).mpr ((htagged2 k).mpr hk)
  have hcnt := processSources_createCount prov2 (existingMap prov2 tgt) mkId' tgt
    (syncDateRange now' w) srcs (fun s _ => hf2 s) hhas2 (initAcc tgt (syncDateRange now' w))
  have hkeep2 := processSources_keep prov2 (existingMap prov2 tgt) mkId' tgt
    (syncDateRange now' w) srcs (fun s _ => hf2 s) (initAcc tgt (syncDateRange now' w))
  have hdelnil : deletePhase prov2 tgt
      (processSources prov2 (existingMap prov2 tgt) mkId' tgt (syncDateRange now' w)
        (initAcc tgt (syncDateRange now' w)) srcs).1.keep (existingMap prov2 tgt) =
      ([], [], .ok ()) := by
    apply deletePhase_of_keep
    intro p hp
    rcases existingMap_mem prov2 tgt hp with ⟨e, he, htag, hpe⟩
    apply contains_iff.mpr
    apply (hkeep2 p.1).mpr
    refine Or.inr ?_
    rw [hsrcs]
    apply (htagged2 p.1).mp
    rw [hpe]
    exact List.mem_map.mpr ⟨e, List.mem_filter.mpr ⟨he, htag⟩, rfl⟩
  rw [hcalls2, hdelnil]
  constructor
  · rw [List.countP_append, hcnt]
    simp [initAcc, isCreateCall]
  · rw [List.countP_append]
    rcases processSources_calls_shape prov2 (existingMap prov2 tgt) mkId' tgt
      (syncDateRange now' w) srcs (initAcc tgt (syncDateRange now' w)) with ⟨nc, hnc, hall⟩
    rw [hnc, List.countP_append]
    have h1 : List.countP isDeleteCall (initAcc tgt (syncDateRange now' w)).calls = 0 := by
      simp [initAcc, isDeleteCall]
    have h2 : List.countP isDeleteCall nc = 0 := by
      apply List.countP_eq_zero.mpr
      intro c hc
      rcases hall c hc with ⟨body, rfl⟩ | ⟨s, rfl⟩ <;> simp [isDeleteCall]
    simp [h1, h2]

/-- C5 witness: the amended theorem applied to the two-source fixture (the
first run creates two duplicate SyncedEvents there, yet the second run is
still quiescent because the pre-run target held no tagged events). -/
theorem C5_second_run_quiescent_witness :
    ((performSync st0 (some settingsDup)
        (provDup.withTargetPage "tgt"
          ((performSync st0 (some settingsDup) provDup mkId0 0).world "tgt"))
        mkId0 3).calls.countP isCreateCall = 0) ∧
    ((performSync st0 (some settingsDup)
        (provDup.withTargetPage "tgt"
          ((performSync st0 (some settingsDup) provDup mkId0 0).world "tgt"))
        mkId0 3).calls.countP isDeleteCall = 0) :=
  C5_second_run_quiescent st0 st0 (some settingsDup) provDup mkId0 mkId0 0 3 "tgt"
    ["src1", "src2"] 1 rfl rfl rfl (fun c => rfl) (fun i => rfl)
    (by decide) (by decide) (by decide)

/-- C6 counterexample: with a target whose listing has two pages, the tagged
event on page 2 lies in the cleanup window but survives `cleanupAll`, which
nevertheless reports success — "deletes every tagged event in that window"
fails. -/
theorem C6_counterexample :
    isSyncedTag pg2Ev = true ∧
    pg2Ev ∈ (provPaged.page "tgt" (some "tok2")).items ∧
    (cleanupAll (some settings1) provPaged 0).2.1 = ["p1"] ∧
    (cleanupAll (some settings1) provPaged 0).2.2 = .ok () :=
  ⟨rfl, by decide, rfl, rfl⟩

/-- C6 (amended): cleanup lists the Cleanup Window (7 days back from
start-of-day, `weeksAhead || 1` weeks forward to end-of-day) but obtains only
the first page of events; it deletes every tagged event of that page,
unconditionally and regardless of source-calendar state, leaves untagged
events alone, and `cleanupSyncedEvents` returns the count deleted to its
caller `cleanupAll` (which discards it). -/
theorem C6_cleanup_spec (s : Settings) (prov : Provider) (now : Int) (tc : String)
    (htc : s.targetCalendar = some tc) (hne : tc ≠ "")
    (hf : prov.fetchOk tc = true) (hd : ∀ i, prov.deleteOk i = true) :
    cleanupAll (some s) prov now =
      (Call.fetch tc (startOfDay now - 7 * dayMs)
          (startOfDay now +
            (if s.weeksAhead = 0 then 1 else s.weeksAhead) * 7 * dayMs + (dayMs - 1)) ::
        (((prov.events tc).filter fun e => isSyncedTag e).map fun e => Call.delete tc e.id),
       ((prov.events tc).filter fun e => isSyncedTag e).map fun e => e.id,
       .ok ()) ∧
    (cleanupSyncedEvents prov tc (startOfDay now - 7 * dayMs)
        (startOfDay now +
          (if s.weeksAhead = 0 then 1 else s.weeksAhead) * 7 * dayMs + (dayMs - 1))).2.2 =
      .ok ((prov.events tc).filter fun e => isSyncedTag e).length := by
  have hcse := cleanupSyncedEvents_of_ok prov tc (startOfDay now - 7 * dayMs)
    (startOfDay now +
      (if s.weeksAhead = 0 then 1 else s.weeksAhead) * 7 * dayMs + (dayMs - 1)) hf hd
  constructor
  · unfold cleanupAll
    dsimp only
    rw [htc]
    dsimp only
    rw [if_neg hne]
    have hrange : getDateRange now (if s.weeksAhead = 0 then 1 else s.weeksAhead) =
        (startOfDay now - 7 * dayMs, startOfDay now,
         startOfDay now +
           (if s.weeksAhead = 0 then 1 else s.weeksAhead) * 7 * dayMs + (dayMs - 1)) := rfl
    simp only [hrange, hcse]
  · rw [hcse]

/-- C6 witness: the spec's scenario — 3 tagged and 2 untagged events in
range: the count returned is 3 and only the tagged ids are deleted. -/
theorem C6_cleanup_spec_witness :
    cleanupAll (some settings1) provClean 43200000 =
      (Call.fetch "tgt" (-604800000) 691199999 ::
        (((provClean.events "tgt").filter fun e => isSyncedTag e).map
          fun e => Call.delete "tgt" e.id),
       ((provClean.events "tgt").filter fun e => isSyncedTag e).map fun e => e.id,
       .ok ()) ∧
    (cleanupSyncedEvents provClean "tgt" (-604800000) 691199999).2.2 = .ok 3 := by
  have h := C6_cleanup_spec settings1 provClean 43200000 "tgt" rfl (by decide)
    rfl (fun i => rfl)
  exact ⟨h.1, h.2.trans (by rfl)⟩

/-- C7: invoking `performSync` while the `_syncInProgress` latch is held
returns immediately — no provider calls, no error, no state or calendar
change; and after any run started with the latch free, successful or failed,
the `finally` clause has released the latch. -/
theorem C7_latch_behavior :
    (∀ st settings prov mkId now, st.syncInProgress = true →
      (performSync st settings prov mkId now).calls = [] ∧
      (performSync st settings prov mkId now).outcome = .ok () ∧
      (performSync st settings prov mkId now).state = st ∧
      ∀ c, (performSync st settings prov mkId now).world c = prov.events c) ∧
    (∀ st settings prov mkId now, st.syncInProgress = false →
      (performSync st settings prov mkId now).state.syncInProgress = false) := by
  constructor
  · intro st settings prov mkId now h
    rw [performSync_latched st settings prov mkId now h]
    exact ⟨rfl, rfl, rfl, fun c => rfl⟩
  · intro st settings prov mkId now h0
    rcases performSync_state_outcome st settings prov mkId now h0 with ⟨hst, -⟩ | ⟨hst, -⟩ <;>
      rw [hst]

/-- C7 witness: the latch theorem at a held-latch state and a free state. -/
theorem C7_latch_behavior_witness :
    (performSync ⟨true, some 3⟩ (some settings1) provDupTgt mkId0 9).calls = [] ∧
    (performSync ⟨true, some 3⟩ (some settings1) provDupTgt mkId0 9).outcome = .ok () ∧
    (performSync ⟨true, some 3⟩ (some settings1) provDupTgt mkId0 9).state = ⟨true, some 3⟩ ∧
    (performSync ⟨true, some 3⟩ (some settings1) provDupTgt mkId0 9).world "tgt" =
      provDupTgt.events "tgt" ∧
    (performSync st0 (some settings1) provDel404 mkId0 9).state.syncInProgress = false := by
  have h1 := C7_latch_behavior.1 ⟨true, some 3⟩ (some settings1) provDupTgt mkId0 9 rfl
  have h2 := C7_latch_behavior.2 st0 (some settings1) provDel404 mkId0 9 rfl
  exact ⟨h1.1, h1.2.1, h1.2.2.1, h1.2.2.2 "tgt", h2⟩

/-- C8: ownership.  Every DELETE issued by a sync run names the target
calendar and the id of a tagged event of that calendar, and every DELETE
issued by cleanup names the id of a tagged event of the cleaned calendar;
consequently (with unique provider ids) an untagged event survives the sync
run in the target calendar and its id is never among cleanup's deletions. -/
theorem C8_ownership :
    (∀ st settings prov mkId now tgt srcs w c i,
      checkSettings settings = .ok (tgt, srcs, w) →
      Call.delete c i ∈ (performSync st settings prov mkId now).calls →
      c = tgt ∧ ∃ ev ∈ prov.events tgt, isSyncedTag ev = true ∧ ev.id = i) ∧
    (∀ prov cal a b c i,
      Call.delete c i ∈ (cleanupSyncedEvents prov cal a b).1 →
      c = cal ∧ ∃ ev ∈ prov.events cal, isSyncedTag ev = true ∧ ev.id = i) ∧
    (∀ st settings prov mkId now tgt srcs w ev,
      checkSettings settings = .ok (tgt, srcs, w) →
      ((prov.events tgt).map CalEvent.id).Nodup →
      ev ∈ prov.events tgt → isSyncedTag ev = false →
      ev ∈ (performSync st settings prov mkId now).world tgt) ∧
    (∀ prov cal a b ev,
      ((prov.events cal).map CalEvent.id).Nodup →
      ev ∈ prov.events cal → isSyncedTag ev = false →
      ev.id ∉ (cleanupSyncedEvents prov cal a b).2.1) := by
  refine ⟨?_, ?_, ?_, ?_⟩
  · intro st settings prov mkId now tgt srcs w c i hset hmem
    rcases performSync_call_origin st settings prov mkId now tgt srcs w hset _ hmem with
      ⟨s, heq⟩ | ⟨body, heq⟩ | ⟨i', heq, hrest⟩
    · exact Call.noConfusion heq
    · exact Call.noConfusion heq
    · injection heq with h1 h2
      subst h1
      subst h2
      exact ⟨rfl, hrest⟩
  · intro prov cal a b c i hmem
    rcases cleanupSyncedEvents_calls_fetch_or_delete prov cal a b _ hmem with
      heq | ⟨i', heq, ev, hev, hevi⟩
    · exact Call.noConfusion heq
    · injection heq with h1 h2
      subst h1
      subst h2
      rcases List.mem_filter.mp hev with ⟨hev', htag⟩
      exact ⟨rfl, ev, hev', htag, hevi⟩
  · intro st settings prov mkId now tgt srcs w ev hset hids hev htag
    rcases performSync_world_cases st settings prov mkId now tgt srcs w hset with
      hW | ⟨dIds, created, hW, hprop⟩
    · rw [hW]
      exact hev
    · rw [hW]
      unfold applyTarget
      rw [if_pos rfl]
      apply List.mem_append.mpr
      refine Or.inl (List.mem_filter.mpr ⟨hev, ?_⟩)
      apply decide_eq_true
      intro hcon
      rcases hprop ev.id (contains_iff.mp hcon) with ⟨ev', hev', htag', hid⟩
      have : ev' = ev := List.inj_on_of_nodup_map hids hev' hev hid
      rw [this] at htag'
      rw [htag] at htag'
      exact Bool.noConfusion htag'
  · intro prov cal a b ev hids hev htag hmem
    unfold cleanupSyncedEvents at hmem
    by_cases hf : prov.fetchOk cal = true
    · rw [if_pos hf] at hmem
      rw [show (1000 : Nat) = 999 + 1 from rfl, cleanupFetchPages_succ] at hmem
      simp only [List.nil_append] at hmem
      rcases cleanupDeleteLoop_ids_sub prov cal _ ev.id hmem with ⟨ev', hev', hid⟩
      rcases List.mem_filter.mp hev' with ⟨hev'', htag'⟩
      rw [fetchEvents_none] at hev''
      have : ev' = ev := List.inj_on_of_nodup_map hids hev'' hev hid
      rw [this] at htag'
      rw [htag] at htag'
      exact Bool.noConfusion htag'
    · rw [if_neg hf] at hmem
      exact absurd hmem (List.not_mem_nil _)

/-- C8 witness: the ownership theorem at concrete fixtures. -/
theorem C8_ownership_witness :
    ("tgt" = "tgt" ∧ ∃ ev ∈ provDupTgt.events "tgt", isSyncedTag ev = true ∧ ev.id = "t2") ∧
    ("tgt" = "tgt" ∧ ∃ ev ∈ provClean.events "tgt", isSyncedTag ev = true ∧ ev.id = "t1") ∧
    unt1 ∈ (performSync st0 (some settings1) provClean mkId0 0).world "tgt" ∧
    unt1.id ∉ (cleanupSyncedEvents provClean "tgt" 0 100).2.1 := by
  refine ⟨?_, ?_, ?_, ?_⟩
  · exact C8_ownership.1 st0 (some settings1) provDupTgt mkId0 0 "tgt" ["src1"] 1
      "tgt" "t2" rfl (by decide)
  · exact C8_ownership.2.1 provClean "tgt" 0 100 "tgt" "t1" (by decide)
  · exact C8_ownership.2.2.1 st0 (some settings1) provClean mkId0 0 "tgt" ["src1"] 1
      unt1 rfl (by decide) (by decide) rfl
  · exact C8_ownership.2.2.2 provClean "tgt" 0 100 unt1 (by decide) (by decide) rfl

/-- C9 counterexample: at `now` = 1970-01-01T12:00Z with weeksAhead 1, the
window the run passes to every fetch keeps the time of day — it is not the
start-of-day / end-of-day window the claim describes. -/
theorem C9_counterexample :
    (performSync st0 (some settings1) provDupTgt mkId0 43200000).calls.head? =
      some (Call.fetch "tgt" (43200000 - 7 * dayMs) (43200000 + 1 * 7 * dayMs)) ∧
    specReconciliationWindow 43200000 1 = (-604800000, 691199999) ∧
    ((43200000 - 7 * dayMs, 43200000 + 1 * 7 * dayMs) : Int × Int) ≠
      specReconciliationWindow 43200000 1 :=
  ⟨rfl, rfl, by decide⟩

/-- C9 (amended): every fetch issued by a sync run carries the window
[now − 7 days, now + weeksAhead·7 days], preserving the time of day at both
ends; the start-of-day / end-of-day normalization of `_getDateRange` is used
only by cleanup, not by `performSync`. -/
theorem C9_sync_window (st : SyncState) (settings : Option Settings) (prov : Provider)
    (mkId : Nat → String) (now : Int) (tgt : String) (srcs : List String) (w : Int)
    (c : String) (a b : Int)
    (hset : checkSettings settings = .ok (tgt, srcs, w))
    (hmem : Call.fetch c a b ∈ (performSync st settings prov mkId now).calls) :
    a = now - 7 * dayMs ∧ b = now + w * 7 * dayMs := by
  rcases performSync_call_origin st settings prov mkId now tgt srcs w hset _ hmem with
    ⟨s, heq⟩ | ⟨body, heq⟩ | ⟨i, heq, -⟩
  · injection heq with h1 h2 h3
    exact ⟨h2, h3⟩
  · exact Call.noConfusion heq
  · exact Call.noConfusion heq

/-- C9 witness: the window theorem applied to the first fetch of a concrete
run. -/
theorem C9_sync_window_witness :
    (-561600000 : Int) = 43200000 - 7 * dayMs ∧
    (648000000 : Int) = 43200000 + 1 * 7 * dayMs :=
  C9_sync_window st0 (some settings1) provDupTgt mkId0 43200000 "tgt" ["src1"] 1
    "tgt" (-561600000) 648000000 rfl (by decide)

/-- C10: `_lastSyncTime` is written only after every step of a run has
succeeded: a failed run leaves `getLastSyncTime` at the value it had before
(the time of the last successful run, or none), and a run that completes
successfully from a free latch sets it to the run's completion time. -/
theorem C10_last_sync_time :
    (∀ st settings prov mkId now e,
      (performSync st settings prov mkId now).outcome = .error e →
      getLastSyncTime (performSync st settings prov mkId now).state = getLastSyncTime st) ∧
    (∀ st settings prov mkId now,
      st.syncInProgress = false →
      (performSync st settings prov mkId now).outcome = .ok () →
      getLastSyncTime (performSync st settings prov mkId now).state = some now) := by
  constructor
  · intro st settings prov mkId now e herr
    by_cases h0 : st.syncInProgress = true
    · rw [performSync_latched st settings prov mkId now h0] at herr
      exact Except.noConfusion herr
    · have h0' : st.syncInProgress = false := Bool.eq_false_iff.mpr h0
      rcases performSync_state_outcome st settings prov mkId now h0' with
        ⟨hst, -⟩ | ⟨-, hok⟩
      · rw [hst]
        rfl
      · rw [herr] at hok
        exact Except.noConfusion hok
  · intro st settings prov mkId now h0 hok
    rcases performSync_state_outcome st settings prov mkId now h0 with
      ⟨-, e, herr⟩ | ⟨hst, -⟩
    · rw [hok] at herr
      exact Except.noConfusion herr
    · rw [hst]
      rfl

/-- C10 witness: a failing run (not-found delete) leaves the recorded time,
a successful run sets it. -/
theorem C10_last_sync_time_witness :
    getLastSyncTime (performSync ⟨false, some 11⟩ (some settings1) provDel404 mkId0 5).state =
      getLastSyncTime ⟨false, some 11⟩ ∧
    getLastSyncTime (performSync st0 (some settings1) provDupTgt mkId0 5).state = some 5 := by
  constructor
  · exact C10_last_sync_time.1 ⟨false, some 11⟩ (some settings1) provDel404 mkId0 5
      DELETE_FAILED rfl
  · exact C10_last_sync_time.2 st0 (some settings1) provDupTgt mkId0 5 rfl rfl

end GCalSync
